import Mathlib

/-!
A verification development for the chunk-replication and adult-liveness core
of an elder/adult storage node (`safe_vault`):

* `AdultLiveness` (src/metadata/adult_liveness.rs): per-operation fan-out
  bookkeeping and the neighbour-relative responsiveness heuristic;
* `BlobRecords` (src/metadata/blob_records.rs): placement, fan-out dispatch
  and response correlation on the elder side;
* `ChunkStorage` (src/chunks/chunk_storage.rs): the adult-side chunk handler.

Rust `HashMap`s are modelled as association lists with distinct keys
(insert replaces in place, otherwise appends); `BTreeSet`s of names as
duplicate-free lists; `XorName`, `MessageId`, public keys and opaque blob
contents as natural numbers, with `^^^` (bitwise xor, interpreted as an
unsigned integer) as the XOR-distance metric.  Iteration order over hash
maps is arbitrary in Rust; every property proved below is insensitive to it.
Disk I/O outcomes of the underlying `BlobChunkStore` (whose code lives in a
module outside the files at hand) are abstracted by a boolean oracle
argument, following the description of its `put`/`get`/`delete`/`has`
operations in the specification.
-/

namespace SafeVault

/-- 256-bit XOR-space name, modelled as a natural number. -/
abbrev Name := Nat

/-- Opaque message identifier, modelled as a natural number. -/
abbrev MessageId := Nat

/-- Bit-prefix of a section, modelled opaquely. -/
abbrev Pfx := Nat

/-- `MessageId::in_response_to`: deterministic and distinct from the parent;
the concrete derivation is opaque, modelled as the successor. -/
def in_response_to (m : MessageId) : MessageId := m + 1

/-! ## Association-list model of `HashMap` -/

/-- Association list with keys `K`, modelling `HashMap<K, V>`. -/
abbrev AList (K V : Type) := List (K × V)

/-- `HashMap::get`. -/
def lookupA {K V : Type} [DecidableEq K] (m : AList K V) (k : K) : Option V :=
  (m.find? (fun p => p.1 = k)).map (fun p => p.2)

/-- `HashMap::insert`: replaces the value in place when the key is present,
otherwise appends a fresh entry. -/
def insertA {K V : Type} [DecidableEq K] (m : AList K V) (k : K) (v : V) :
    AList K V :=
  if (lookupA m k).isSome then
    m.map (fun p => if p.1 = k then (k, v) else p)
  else
    m ++ [(k, v)]

/-- `HashMap::remove`. -/
def eraseA {K V : Type} [DecidableEq K] (m : AList K V) (k : K) : AList K V :=
  m.filter (fun p => p.1 ≠ k)

/-- `HashMap::keys`. -/
def keysA {K V : Type} (m : AList K V) : List K :=
  m.map (fun p => p.1)

/-- `collect::<BTreeSet<_>>()` on a sequence of names: drop duplicates and
sort ascending (a `BTreeSet` iterates its distinct elements in order). -/
def btreeSet (l : List Name) : List Name :=
  List.insertionSort (fun a b => a ≤ b) l.dedup

/-! ## Data model (sn_data_types / sn_messaging, as used by this core) -/

/-- `BlobAddress`: a name plus the public/private variant tag. -/
structure BlobAddress : Type where
  isPrivate : Bool
  name : Name
deriving DecidableEq

/-- `Blob`: public or private, carrying opaque contents; a private blob also
carries its owner's public key.  The address is a pure function of the
variant tag and the name. -/
inductive Blob : Type
  | publicB (name : Name) (value : Nat)
  | privateB (name : Name) (value : Nat) (owner : Nat)
deriving DecidableEq

/-- `Blob::name`. -/
def Blob.name : Blob → Name
  | .publicB n _ => n
  | .privateB n _ _ => n

/-- `Blob::address`. -/
def Blob.address : Blob → BlobAddress
  | .publicB n _ => { isPrivate := false, name := n }
  | .privateB n _ _ => { isPrivate := true, name := n }

/-- `Blob::is_private`. -/
def Blob.isPrivate : Blob → Bool
  | .publicB _ _ => false
  | .privateB _ _ _ => true

/-- `Blob::owner`: the owner key of a private blob. -/
def Blob.owner : Blob → Option Nat
  | .publicB _ _ => none
  | .privateB _ _ o => some o

/-- `crate::Error`: the variants this core produces or inspects. -/
inductive Error : Type
  | noAdults (pfx : Pfx)
  | dataExists
  | invalidOwners (pk : Nat)
  | noSuchKey
  | io
  | logic
deriving DecidableEq

/-- `sn_messaging::client::Error`, the user-facing error message. -/
inductive ErrorMessage : Type
  | dataNotFound (address : BlobAddress)
  | noSuchKey
  | invalidOwners (pk : Nat)
  | invalidOperation (about : MessageId)
  | failedToDelete
  | dataExists
  | noAdults (pfx : Pfx)
  | other
deriving DecidableEq

/-- Modelled from the spec: `convert_to_error_message` (error module, outside
the files at hand) maps each internal error to the user-facing message of the
same kind (§7 of the spec lists the surfaced kinds). -/
def convert_to_error_message : Error → ErrorMessage
  | .noAdults p => .noAdults p
  | .dataExists => .dataExists
  | .invalidOwners pk => .invalidOwners pk
  | .noSuchKey => .noSuchKey
  | .io => .other
  | .logic => .other

/-- `CmdError`. -/
inductive CmdError : Type
  | data (e : ErrorMessage)
deriving DecidableEq

instance {ε α : Type} [DecidableEq ε] [DecidableEq α] :
    DecidableEq (Except ε α) := fun a b =>
  match a, b with
  | .ok x, .ok y => decidable_of_iff (x = y) (by simp)
  | .error x, .error y => decidable_of_iff (x = y) (by simp)
  | .ok _, .error _ => isFalse (by simp)
  | .error _, .ok _ => isFalse (by simp)

/-- `QueryResponse`: only `GetBlob` flows through this core; every other
variant is collapsed into `other`. -/
inductive QueryResponse : Type
  | getBlob (result : Except ErrorMessage Blob)
  | other
deriving DecidableEq

/-- `QueryResponse::is_success`. -/
def QueryResponse.is_success : QueryResponse → Bool
  | .getBlob (.ok _) => true
  | .getBlob (.error _) => false
  | .other => false

/-- `BlobWrite`. -/
inductive BlobWrite : Type
  | new (data : Blob)
  | deletePrivate (address : BlobAddress)
deriving DecidableEq

/-- `Aggregation`. -/
inductive Aggregation : Type
  | none
  | atDestination
deriving DecidableEq

/-- The outbound messages this core produces.  The two client-bound shapes
are those of the §4.5 builders (metadata module, outside the files at hand):
both stamp `id = in_response_to(correlation_id)`.  `nodeEvent` carries a
`ChunkWriteHandled` result to the metadata section of `dst`. -/
inductive Msg : Type
  | clientQueryResponse (response : QueryResponse) (correlation_id : MessageId)
      (end_user : Nat)
  | clientCmdError (error : CmdError) (correlation_id : MessageId)
      (end_user : Nat)
  | nodeEvent (result : Except CmdError Unit) (id : MessageId)
      (correlation_id : MessageId) (dst : Name)
  | queryResponseToSection (response : QueryResponse) (id : MessageId)
      (correlation_id : MessageId) (dst : Name)
deriving DecidableEq

/-- Modelled from the spec: `build_client_query_response` (§4.5). -/
def build_client_query_response (response : QueryResponse)
    (correlation_id : MessageId) (end_user : Nat) : Msg :=
  .clientQueryResponse response correlation_id end_user

/-- Modelled from the spec: `build_client_error_response` (§4.5). -/
def build_client_error_response (error : CmdError) (msg_id : MessageId)
    (end_user : Nat) : Msg :=
  .clientCmdError error msg_id end_user

/-- The node-to-node messages this core fans out. -/
inductive NodeMsg : Type
  | nodeCmdChunks (cmd : BlobWrite) (client_signed : Nat) (origin : Nat)
      (id : MessageId)
  | nodeQueryChunksGet (address : BlobAddress) (origin : Nat) (id : MessageId)
  | replicateChunk (data : Blob) (id : MessageId)
deriving DecidableEq

/-- `NodeDuty`: the duties produced by this core. -/
inductive NodeDuty : Type
  | send (msg : Msg)
  | sendToNodes (targets : List Name) (msg : NodeMsg) (aggregation : Aggregation)
  | proposeOffline (names : List Name)
  | noOp
deriving DecidableEq

/-! ## Adult liveness tracker (src/metadata/adult_liveness.rs) -/

/-- `NEIGHBOUR_COUNT` from adult_liveness.rs. -/
def NEIGHBOUR_COUNT : Nat := 2

/-- `MIN_PENDING_OPS` from adult_liveness.rs. -/
def MIN_PENDING_OPS : Nat := 10

/-- The constant `PENDING_OP_TOLERANCE_RATIO = 0.1` from adult_liveness.rs.
The source compares in binary64; here the literal `0.1` is modelled by the
exact rational `1/10` (for pending counts below `2^49` — far beyond any
population the tracker can hold — the binary64 comparison agrees with the
exact one). -/
def PENDING_OP_TOLERANCE : ℚ := 1 / 10

/-- The `Operation` enum stored in `AdultLiveness::ops`.  An `EndUser` is its
public key, modelled as a natural number; a `Write` origin is `none` when the
write was initiated by the section. -/
inductive Operation : Type
  | read (address : BlobAddress) (origin : Nat) (targets : List Name)
  | write (address : BlobAddress) (origin : Option Nat) (targets : List Name)
deriving DecidableEq

/-- The target set of an operation (either arm). -/
def Operation.targets : Operation → List Name
  | .read _ _ ts => ts
  | .write _ _ ts => ts

/-- `BTreeSet::remove` on an operation's target set (either arm). -/
def Operation.removeTarget (op : Operation) (name : Name) : Operation :=
  match op with
  | .read a o ts => .read a o (ts.erase name)
  | .write a o ts => .write a o (ts.erase name)

/-- The `AdultLiveness` struct: `ops`, `pending_ops`, `closest_adults`. -/
structure AdultLiveness : Type where
  ops : AList MessageId Operation
  pending_ops : AList Name Nat
  closest_adults : AList Name (List Name)
deriving DecidableEq

/-- `AdultLiveness::new`. -/
def AdultLiveness.new : AdultLiveness :=
  { ops := [], pending_ops := [], closest_adults := [] }

/-- The pending count recorded for `n`, reading an absent entry as `0`
(the tracker reads counts with `unwrap_or(0)`). -/
def AdultLiveness.pendingCount (st : AdultLiveness) (n : Name) : Nat :=
  (lookupA st.pending_ops n).getD 0

/-- `AdultLiveness::recompute_closest_adults`: for each key of
`closest_adults`, its value becomes the other keys sorted (stably, as
itertools' `sorted_by`; modelled with insertion sort) by ascending
XOR-distance from the key — `cmp_distance` — truncated to
`NEIGHBOUR_COUNT`. -/
def AdultLiveness.recompute_closest_adults (st : AdultLiveness) :
    AdultLiveness :=
  let adults := keysA st.closest_adults
  { st with
    closest_adults := st.closest_adults.map (fun p =>
      (p.1,
        (List.insertionSort (fun lhs rhs => p.1 ^^^ lhs ≤ p.1 ^^^ rhs)
            (adults.filter (fun name => name ≠ p.1))).take NEIGHBOUR_COUNT)) }

/-- One iteration of the `increment_pending_op` loop: bump the pending count
of `node` (inserting `0` first when absent), and when `node` is not yet a key
of `closest_adults`, insert it with an empty value and recompute. -/
def AdultLiveness.incStep (st : AdultLiveness) (node : Name) : AdultLiveness :=
  let st := { st with
    pending_ops :=
      insertA st.pending_ops node ((lookupA st.pending_ops node).getD 0 + 1) }
  if (lookupA st.closest_adults node).isSome then st
  else
    AdultLiveness.recompute_closest_adults
      { st with closest_adults := insertA st.closest_adults node [] }

/-- `AdultLiveness::increment_pending_op`: run `incStep` over the targets. -/
def AdultLiveness.increment_pending_op (st : AdultLiveness)
    (targets : List Name) : AdultLiveness :=
  targets.foldl AdultLiveness.incStep st

/-- `AdultLiveness::new_write`: insert iff `msg_id` is absent from `ops`;
on insert, increment pending counts; return whether the insert happened. -/
def AdultLiveness.new_write (st : AdultLiveness) (msg_id : MessageId)
    (origin : Option Nat) (address : BlobAddress) (targets : List Name) :
    AdultLiveness × Bool :=
  if (lookupA st.ops msg_id).isSome then (st, false)
  else
    let st := { st with
      ops := insertA st.ops msg_id (Operation.write address origin targets) }
    (st.increment_pending_op targets, true)

/-- `AdultLiveness::new_read`: as `new_write`, storing a `Read` operation. -/
def AdultLiveness.new_read (st : AdultLiveness) (msg_id : MessageId)
    (address : BlobAddress) (origin : Nat) (targets : List Name) :
    AdultLiveness × Bool :=
  if (lookupA st.ops msg_id).isSome then (st, false)
  else
    let st := { st with
      ops := insertA st.ops msg_id (Operation.read address origin targets) }
    (st.increment_pending_op targets, true)

/-- `AdultLiveness::remove_target`: decrement `pending_ops[name]` saturating
at zero; remove `name` from the operation's targets; drop the operation when
its targets become empty (or when it does not exist). -/
def AdultLiveness.remove_target (st : AdultLiveness) (msg_id : MessageId)
    (name : Name) : AdultLiveness :=
  let pending :=
    match lookupA st.pending_ops name with
    | some count => if count > 0 then insertA st.pending_ops name (count - 1)
                    else st.pending_ops
    | none => st.pending_ops
  let opsAndComplete :=
    match lookupA st.ops msg_id with
    | some op =>
        let op := op.removeTarget name
        (insertA st.ops msg_id op, op.targets.isEmpty)
    | none => (st.ops, true)
  let ops := if opsAndComplete.2 then eraseA opsAndComplete.1 msg_id
             else opsAndComplete.1
  { st with pending_ops := pending, ops := ops }

/-- One iteration of the `retain_members_only` loop: when `name` is not a
current member, drop it from `pending_ops` and `closest_adults` and remove it
as a target of every live operation. -/
def AdultLiveness.retainStep (current_members : List Name)
    (st : AdultLiveness) (name : Name) : AdultLiveness :=
  if name ∈ current_members then st
  else
    let st := { st with
      pending_ops := eraseA st.pending_ops name,
      closest_adults := eraseA st.closest_adults name }
    (keysA st.ops).foldl (fun st msg_id => st.remove_target msg_id name) st

/-- `AdultLiveness::retain_members_only`: run `retainStep` (drop the adult
from `pending_ops` and `closest_adults` and remove it as a target of every
live operation) over each tracked adult not in `current_members`; then
recompute `closest_adults`. -/
def AdultLiveness.retain_members_only (st : AdultLiveness)
    (current_members : List Name) : AdultLiveness :=
  let old_members := keysA st.closest_adults
  let st := old_members.foldl (AdultLiveness.retainStep current_members) st
  st.recompute_closest_adults

/-- `AdultLiveness::record_adult_write_liveness`: look the operation up,
remove the responding source as a target, and return the address and origin
when the operation was a `Write`. -/
def AdultLiveness.record_adult_write_liveness (st : AdultLiveness)
    (correlation_id : MessageId) (src : Name) :
    AdultLiveness × Option (BlobAddress × Option Nat) :=
  let op := lookupA st.ops correlation_id
  let st := st.remove_target correlation_id src
  (st, op.bind (fun op =>
    match op with
    | .write address origin _ => some (address, origin)
    | .read _ _ _ => none))

/-- `AdultLiveness::record_adult_read_liveness`: look the operation up,
remove the responding source as a target, and return the address and origin
when the operation was a `Read`. -/
def AdultLiveness.record_adult_read_liveness (st : AdultLiveness)
    (correlation_id : MessageId) (src : Name) :
    AdultLiveness × Option (BlobAddress × Nat) :=
  let op := lookupA st.ops correlation_id
  let st := st.remove_target correlation_id src
  (st, op.bind (fun op =>
    match op with
    | .read address origin _ => some (address, origin)
    | .write _ _ _ => none))

/-- One iteration of the `find_unresponsive_adults` loop, for the entry of
adult `p.1` with recorded neighbour list `p.2`: when the neighbour list is
non-empty, report the adult (with its pending count) exactly when its pending
count and the neighbours' maximum pending count both exceed
`MIN_PENDING_OPS` and pending count times the tolerance exceeds the
neighbours' maximum. -/
def AdultLiveness.unresponsiveEntry (st : AdultLiveness)
    (p : Name × List Name) : Option (Name × Nat) :=
  match (p.2.map (fun nb => (lookupA st.pending_ops nb).getD 0)).max? with
  | none => none
  | some maxPendingByNeighbours =>
      let adult_pending_ops := (lookupA st.pending_ops p.1).getD 0
      if adult_pending_ops > MIN_PENDING_OPS ∧
          maxPendingByNeighbours > MIN_PENDING_OPS ∧
          (adult_pending_ops : ℚ) * PENDING_OP_TOLERANCE >
            (maxPendingByNeighbours : ℚ) then
        some (p.1, adult_pending_ops)
      else none

/-- One iteration of the `find_unresponsive_adults` loop: push the entry's
report, if any, onto the accumulator. -/
def AdultLiveness.unresponsiveFold (st : AdultLiveness)
    (acc : List (Name × Nat)) (p : Name × List Name) : List (Name × Nat) :=
  match st.unresponsiveEntry p with
  | none => acc
  | some x => acc ++ [x]

/-- `AdultLiveness::find_unresponsive_adults`: push `unresponsiveEntry` for
each entry of `closest_adults`. -/
def AdultLiveness.find_unresponsive_adults (st : AdultLiveness) :
    List (Name × Nat) :=
  st.closest_adults.foldl st.unresponsiveFold []

/-- The number of live operations whose target set contains `n` — the
specification's `|{ op : n ∈ op.targets }|`. -/
def AdultLiveness.liveCount (st : AdultLiveness) (n : Name) : Nat :=
  st.ops.countP (fun p => n ∈ p.2.targets)

/-! ### Call traces over the tracker's public mutators -/

/-- One call to a public mutator of `AdultLiveness`. -/
inductive LivenessCall : Type
  | newWrite (msg_id : MessageId) (origin : Option Nat) (address : BlobAddress)
      (targets : List Name)
  | newRead (msg_id : MessageId) (address : BlobAddress) (origin : Nat)
      (targets : List Name)
  | removeTarget (msg_id : MessageId) (name : Name)
  | retainMembersOnly (current_members : List Name)

/-- Apply one call to the tracker. -/
def applyCall (st : AdultLiveness) : LivenessCall → AdultLiveness
  | .newWrite m o a ts => (st.new_write m o a ts).1
  | .newRead m a o ts => (st.new_read m a o ts).1
  | .removeTarget m n => st.remove_target m n
  | .retainMembersOnly ms => st.retain_members_only ms

/-- Run a sequence of calls from a fresh tracker. -/
def runCalls (calls : List LivenessCall) : AdultLiveness :=
  calls.foldl applyCall AdultLiveness.new

/-- A call is well formed against the current state when its `BTreeSet`
arguments are duplicate-free and, for `remove_target(msg_id, name)`, the
operation is live and `name` is one of its targets (as holds at the
tracker's call sites, where `remove_target` processes a reply from an adult
the operation was fanned out to). -/
def wfCall (st : AdultLiveness) : LivenessCall → Prop
  | .newWrite _ _ _ ts => ts.Nodup
  | .newRead _ _ _ ts => ts.Nodup
  | .removeTarget m n => ∃ op, lookupA st.ops m = some op ∧ n ∈ op.targets
  | .retainMembersOnly _ => True

/-- All calls of a trace are well formed against the state they run in. -/
def wfTrace : AdultLiveness → List LivenessCall → Prop
  | _, [] => True
  | st, c :: cs => wfCall st c ∧ wfTrace (applyCall st c) cs

/-- The tracker's inductive invariant: `ops` has distinct keys and
duplicate-free target sets (as the Rust `HashMap` and `BTreeSet` guarantee
by construction), and every name's pending count equals the number of live
operations targeting it. -/
def TrackerInv (st : AdultLiveness) : Prop :=
  (keysA st.ops).Nodup ∧ (∀ p ∈ st.ops, (Operation.targets p.2).Nodup) ∧
  ∀ n, st.pendingCount n = st.liveCount n

/-! ## Blob records, elder side (src/metadata/blob_records.rs) -/

/-- `CHUNK_COPY_COUNT` from blob_records.rs. -/
def CHUNK_COPY_COUNT : Nat := 4

/-- The routing-layer `AdultReader` (its code lives outside the files at
hand): `non_full_adults_closest_to(name, full_adults, count)` and
`our_prefix()`, taken as an opaque deterministic parameter. -/
structure AdultReader : Type where
  non_full_adults_closest_to : Name → List Name → Nat → List Name
  ourPfx : Pfx

/-- The `BlobRecords` struct: the shared `FullAdults` set
(`adult_storage_info.full_adults`) and the owned liveness tracker. -/
structure BlobRecords : Type where
  full_adults : List Name
  adult_liveness : AdultLiveness
deriving DecidableEq

/-- `BlobRecords::get_holders_for_chunk`: delegate to the reader with the
current `FullAdults` set and `CHUNK_COPY_COUNT`. -/
def BlobRecords.get_holders_for_chunk (reader : AdultReader)
    (st : BlobRecords) (target : Name) : List Name :=
  reader.non_full_adults_closest_to target st.full_adults CHUNK_COPY_COUNT

/-- `BlobRecords::send_error`: convert and wrap as a client error reply. -/
def BlobRecords.send_error (error : Error) (msg_id : MessageId)
    (origin : Nat) : NodeDuty :=
  NodeDuty.send
    (build_client_error_response (CmdError.data (convert_to_error_message error))
      msg_id origin)

/-- `validate_data_owner` from blob_records.rs. -/
def validate_data_owner (data : Blob) (requester : Nat) : Except Error Unit :=
  if data.isPrivate then
    match data.owner with
    | none => .error (Error.invalidOwners requester)
    | some data_owner =>
        if data_owner ≠ requester then .error (Error.invalidOwners requester)
        else .ok ()
  else .ok ()

/-- `BlobRecords::send_chunks_to_adults`: compute holders; on an empty
target set reply `NoAdults(our_prefix)`; otherwise fan the write out with
aggregation `AtDestination`. -/
def BlobRecords.send_chunks_to_adults (reader : AdultReader)
    (st : BlobRecords) (data : Blob) (msg_id : MessageId)
    (client_signed : Nat) (origin : Nat) : BlobRecords × NodeDuty :=
  let target_holders := btreeSet (st.get_holders_for_chunk reader data.name)
  if target_holders.isEmpty then
    (st, BlobRecords.send_error (Error.noAdults reader.ourPfx) msg_id origin)
  else
    (st, NodeDuty.sendToNodes target_holders
      (NodeMsg.nodeCmdChunks (BlobWrite.new data) client_signed origin msg_id)
      Aggregation.atDestination)

/-- `BlobRecords::store`: owner validation, then `send_chunks_to_adults`. -/
def BlobRecords.store (reader : AdultReader) (st : BlobRecords) (data : Blob)
    (msg_id : MessageId) (client_signed : Nat) (origin : Nat) :
    BlobRecords × NodeDuty :=
  match validate_data_owner data client_signed with
  | .error error => (st, BlobRecords.send_error error msg_id origin)
  | .ok _ => st.send_chunks_to_adults reader data msg_id client_signed origin

/-- `BlobRecords::delete` (elder side): compute holders and emit the
`DeletePrivate` fan-out with aggregation `AtDestination` — the source has no
empty-target check on this path. -/
def BlobRecords.delete (reader : AdultReader) (st : BlobRecords)
    (address : BlobAddress) (msg_id : MessageId) (client_signed : Nat)
    (origin : Nat) : BlobRecords × NodeDuty :=
  let targets := btreeSet (st.get_holders_for_chunk reader address.name)
  (st, NodeDuty.sendToNodes targets
    (NodeMsg.nodeCmdChunks (BlobWrite.deletePrivate address) client_signed
      origin msg_id)
    Aggregation.atDestination)

/-- `BlobRecords::write`: dispatch on the `BlobWrite` variant. -/
def BlobRecords.write (reader : AdultReader) (st : BlobRecords)
    (w : BlobWrite) (msg_id : MessageId) (client_signed : Nat)
    (origin : Nat) : BlobRecords × NodeDuty :=
  match w with
  | .new data => st.store reader data msg_id client_signed origin
  | .deletePrivate address =>
      st.delete reader address msg_id client_signed origin

/-- `BlobRecords::get`: holders unioned with the whole `FullAdults` set; on
an empty union reply `NoAdults(our_prefix)`; otherwise register the read and
fan out a chunk query with aggregation `None` exactly when the registration
was fresh. -/
def BlobRecords.get (reader : AdultReader) (st : BlobRecords)
    (address : BlobAddress) (msg_id : MessageId) (origin : Nat) :
    BlobRecords × NodeDuty :=
  let targets :=
    btreeSet (st.get_holders_for_chunk reader address.name ++ st.full_adults)
  if targets.isEmpty then
    (st, BlobRecords.send_error (Error.noAdults reader.ourPfx) msg_id origin)
  else
    let upd := st.adult_liveness.new_read msg_id address origin targets
    let st := { st with adult_liveness := upd.1 }
    if upd.2 then
      (st, NodeDuty.sendToNodes targets
        (NodeMsg.nodeQueryChunksGet address origin msg_id) Aggregation.none)
    else
      (st, NodeDuty.noOp)

/-- Whether a duty is a client query reply (the shape
`NodeDuty::Send(build_client_query_response(..))`). -/
def NodeDuty.isClientQueryReply : NodeDuty → Bool
  | .send (.clientQueryResponse _ _ _) => true
  | _ => false

/-- `BlobRecords::record_adult_read_liveness` (elder side): reject any
response other than `GetBlob` with a `Logic` error; otherwise record the
reply in the tracker, forward it to the end user unless the source is a full
adult and the response a failure, and propose any unresponsive adults
offline.  (The call site passes `response.is_success()` to the tracker as
well; the tracker in this tree takes only the correlation id and the
source.) -/
def BlobRecords.record_adult_read_liveness (st : BlobRecords)
    (correlation_id : MessageId) (response : QueryResponse) (src : Name) :
    Except Error (BlobRecords × List NodeDuty) :=
  match response with
  | .other => .error Error.logic
  | .getBlob result =>
      let r := st.adult_liveness.record_adult_read_liveness correlation_id src
      let st := { st with adult_liveness := r.1 }
      let duties :=
        match r.2 with
        | some p =>
            if src ∈ st.full_adults ∧
                (QueryResponse.getBlob result).is_success = false then
              []
            else
              [NodeDuty.send
                (build_client_query_response (QueryResponse.getBlob result)
                  correlation_id p.2)]
        | none => []
      let unresponsive_adults :=
        (st.adult_liveness.find_unresponsive_adults).map (fun p => p.1)
      let duties :=
        if unresponsive_adults.isEmpty then duties
        else duties ++ [NodeDuty.proposeOffline unresponsive_adults]
      .ok (st, duties)

/-! ## Chunk storage, adult side (src/chunks/chunk_storage.rs) -/

/-- The on-disk chunk map of `BlobChunkStore`, modelled in memory. -/
abbrev ChunkMap := AList BlobAddress Blob

/-- Modelled from the spec: `BlobChunkStore::put` (§4.1; the chunk-store
module is outside the files at hand): fails with `DataExists` when the
address is present, with `Io` when the disk fails (the `ioOk` oracle),
otherwise persists. -/
def chunkPut (chunks : ChunkMap) (ioOk : Bool) (blob : Blob) :
    Except Error ChunkMap :=
  if (lookupA chunks blob.address).isSome then .error Error.dataExists
  else if ioOk then .ok (insertA chunks blob.address blob)
  else .error Error.io

/-- Modelled from the spec: `BlobChunkStore::delete` (§4.1): removes the
entry, or fails with `Io` when the disk fails (the `ioOk` oracle). -/
def chunkDeleteStore (chunks : ChunkMap) (ioOk : Bool)
    (address : BlobAddress) : Except Error ChunkMap :=
  if ioOk then .ok (eraseA chunks address) else .error Error.io

/-- The `ChunkStorage` struct wrapping the chunk store. -/
structure ChunkStorage : Type where
  chunks : ChunkMap
deriving DecidableEq

/-- `BlobChunkStore::has`, modelled from the spec (§4.1). -/
def ChunkStorage.has (s : ChunkStorage) (address : BlobAddress) : Bool :=
  (lookupA s.chunks address).isSome

/-- `ChunkStorage::try_store`: refuse with `DataExists` when the chunk is
already held, otherwise put. -/
def ChunkStorage.try_store (s : ChunkStorage) (ioOk : Bool) (data : Blob) :
    Except Error ChunkStorage :=
  if s.has data.address then .error Error.dataExists
  else (chunkPut s.chunks ioOk data).map (fun c => { chunks := c })

/-- `ChunkStorage::store`: `Ok` and `DataExists` are both reported as
success; any other error is carried as a `Data` command error.  The result
travels in a `ChunkWriteHandled` node event addressed to the metadata
section of the blob's name. -/
def ChunkStorage.store (s : ChunkStorage) (ioOk : Bool) (data : Blob)
    (msg_id : MessageId) : ChunkStorage × NodeDuty :=
  let tried := s.try_store ioOk data
  let result : Except CmdError Unit :=
    match tried with
    | .ok _ => .ok ()
    | .error Error.dataExists => .ok ()
    | .error other => .error (CmdError.data (convert_to_error_message other))
  let after :=
    match tried with
    | .ok s2 => s2
    | .error _ => s
  (after,
    NodeDuty.send
      (Msg.nodeEvent result (in_response_to msg_id) msg_id data.address.name))

/-- `ChunkStorage::delete` (adult side): silent no-op when the chunk is
absent; reject a public blob with `InvalidOperation`; reject a private blob
whose owner differs from the caller with `InvalidOwners`; otherwise delete,
reporting a disk failure as `FailedToDelete`. -/
def ChunkStorage.delete (s : ChunkStorage) (ioOk : Bool)
    (address : BlobAddress) (msg_id : MessageId) (origin : Nat) :
    ChunkStorage × NodeDuty :=
  if s.has address = false then (s, NodeDuty.noOp)
  else
    let rs : Except ErrorMessage Unit × ChunkStorage :=
      match lookupA s.chunks address with
      | some (Blob.privateB _ _ owner) =>
          if owner = origin then
            match chunkDeleteStore s.chunks ioOk address with
            | .ok c => (.ok (), { chunks := c })
            | .error _ => (.error ErrorMessage.failedToDelete, s)
          else (.error (ErrorMessage.invalidOwners origin), s)
      | some (Blob.publicB _ _) =>
          (.error (ErrorMessage.invalidOperation msg_id), s)
      | none => (.error ErrorMessage.noSuchKey, s)
    (rs.2,
      NodeDuty.send
        (Msg.nodeEvent (rs.1.mapError CmdError.data) (in_response_to msg_id)
          msg_id address.name))

end SafeVault


namespace SafeVault

/-! ## Lemmas about the association-list map model -/

theorem lookupA_cons {K V : Type} [DecidableEq K] (a : K) (b : V)
    (m : AList K V) (k : K) :
    lookupA ((a, b) :: m) k = if a = k then some b else lookupA m k := by
  by_cases h : a = k <;> simp [lookupA, List.find?_cons, h]

theorem lookupA_append {K V : Type} [DecidableEq K] (m₁ m₂ : AList K V)
    (k : K) :
    lookupA (m₁ ++ m₂) k = (lookupA m₁ k).or (lookupA m₂ k) := by
  simp only [lookupA, List.find?_append]
  cases List.find? (fun p => decide (p.1 = k)) m₁ <;> simp

theorem lookupA_isSome_iff_mem_keysA {K V : Type} [DecidableEq K]
    (m : AList K V) (k : K) :
    (lookupA m k).isSome = true ↔ k ∈ keysA m := by
  induction m with
  | nil => simp [lookupA, keysA]
  | cons p t ih =>
      rcases p with ⟨a, b⟩
      rw [lookupA_cons, keysA, List.map_cons]
      by_cases h : a = k
      · subst h
        simp
      · rw [if_neg h]
        simp only [List.mem_cons]
        rw [ih]
        constructor
        · intro hm
          exact Or.inr hm
        · rintro (rfl | hm)
          · exact absurd rfl h
          · exact hm

theorem lookupA_eq_none_iff {K V : Type} [DecidableEq K]
    (m : AList K V) (k : K) :
    lookupA m k = none ↔ k ∉ keysA m := by
  rw [← lookupA_isSome_iff_mem_keysA]
  cases lookupA m k <;> simp

theorem mem_of_lookupA_eq_some {K V : Type} [DecidableEq K]
    {m : AList K V} {k : K} {v : V} (h : lookupA m k = some v) :
    (k, v) ∈ m := by
  induction m with
  | nil => simp [lookupA] at h
  | cons p t ih =>
      rcases p with ⟨a, b⟩
      rw [lookupA_cons] at h
      by_cases hak : a = k
      · rw [if_pos hak] at h
        cases h
        subst hak
        exact List.mem_cons_self _ _
      · rw [if_neg hak] at h
        exact List.mem_cons_of_mem _ (ih h)

theorem lookupA_updateMap {K V : Type} [DecidableEq K]
    (m : AList K V) (k : K) (v : V) (q : K) :
    lookupA (m.map (fun p => if p.1 = k then (k, v) else p)) q =
      if q = k then (if (lookupA m k).isSome then some v else none)
      else lookupA m q := by
  induction m with
  | nil => by_cases h : q = k <;> simp [lookupA, h]
  | cons p t ih =>
      rcases p with ⟨a, b⟩
      by_cases hak : a = k <;> by_cases hq : q = k <;>
        by_cases haq : a = q <;>
        simp_all [List.map_cons, lookupA_cons]

theorem lookupA_insertA_self {K V : Type} [DecidableEq K]
    (m : AList K V) (k : K) (v : V) :
    lookupA (insertA m k v) k = some v := by
  unfold insertA
  by_cases h : (lookupA m k).isSome
  · rw [if_pos h, lookupA_updateMap, if_pos rfl, if_pos h]
  · rw [if_neg h, lookupA_append]
    have hnone : lookupA m k = none := by
      cases hm : lookupA m k
      · rfl
      · simp [hm] at h
    rw [hnone, lookupA_cons, if_pos rfl]
    rfl

theorem lookupA_insertA_ne {K V : Type} [DecidableEq K]
    (m : AList K V) (k : K) (v : V) {q : K} (h : q ≠ k) :
    lookupA (insertA m k v) q = lookupA m q := by
  unfold insertA
  by_cases hs : (lookupA m k).isSome
  · rw [if_pos hs, lookupA_updateMap, if_neg h]
  · rw [if_neg hs, lookupA_append, lookupA_cons,
      if_neg (fun hk : k = q => h hk.symm)]
    show (lookupA m q).or (lookupA [] q) = lookupA m q
    cases lookupA m q <;> rfl

theorem eraseA_cons {K V : Type} [DecidableEq K] (a : K) (b : V)
    (m : AList K V) (k : K) :
    eraseA ((a, b) :: m) k =
      if a = k then eraseA m k else (a, b) :: eraseA m k := by
  by_cases h : a = k <;> simp [eraseA, List.filter_cons, h]

theorem lookupA_eraseA_self {K V : Type} [DecidableEq K]
    (m : AList K V) (k : K) :
    lookupA (eraseA m k) k = none := by
  induction m with
  | nil => rfl
  | cons p t ih =>
      rcases p with ⟨a, b⟩
      rw [eraseA_cons]
      by_cases h : a = k
      · rw [if_pos h]
        exact ih
      · rw [if_neg h, lookupA_cons, if_neg h]
        exact ih

theorem lookupA_eraseA_ne {K V : Type} [DecidableEq K]
    (m : AList K V) (k : K) {q : K} (h : q ≠ k) :
    lookupA (eraseA m k) q = lookupA m q := by
  induction m with
  | nil => rfl
  | cons p t ih =>
      rcases p with ⟨a, b⟩
      rw [eraseA_cons]
      by_cases hak : a = k
      · have haq : a ≠ q := fun haq => h (by rw [← haq, hak])
        rw [if_pos hak, ih, lookupA_cons, if_neg haq]
      · rw [if_neg hak, lookupA_cons, lookupA_cons, ih]

theorem eraseA_eq_self_of_lookup_none {K V : Type} [DecidableEq K]
    {m : AList K V} {k : K} (h : lookupA m k = none) :
    eraseA m k = m := by
  induction m with
  | nil => rfl
  | cons p t ih =>
      rcases p with ⟨a, b⟩
      rw [lookupA_cons] at h
      by_cases hak : a = k
      · rw [if_pos hak] at h
        cases h
      · rw [if_neg hak] at h
        rw [eraseA_cons, if_neg hak, ih h]

theorem keysA_updateMap {K V : Type} [DecidableEq K] (m : AList K V)
    (k : K) (v : V) :
    keysA (m.map (fun p => if p.1 = k then (k, v) else p)) = keysA m := by
  induction m with
  | nil => rfl
  | cons p t ih =>
      rcases p with ⟨a, b⟩
      by_cases hak : a = k <;> simp_all [keysA, List.map_cons]

theorem keysA_insertA {K V : Type} [DecidableEq K] (m : AList K V)
    (k : K) (v : V) :
    keysA (insertA m k v) =
      if (lookupA m k).isSome then keysA m else keysA m ++ [k] := by
  unfold insertA
  by_cases h : (lookupA m k).isSome
  · rw [if_pos h, if_pos h, keysA_updateMap]
  · rw [if_neg h, if_neg h]
    simp [keysA]

theorem nodup_keysA_insertA {K V : Type} [DecidableEq K] {m : AList K V}
    (hnd : (keysA m).Nodup) (k : K) (v : V) :
    (keysA (insertA m k v)).Nodup := by
  rw [keysA_insertA]
  by_cases h : (lookupA m k).isSome
  · rwa [if_pos h]
  · rw [if_neg h]
    have hk : k ∉ keysA m := by
      rw [← lookupA_isSome_iff_mem_keysA]
      simp [h]
    simp [List.nodup_append, hnd, hk]

theorem keysA_eraseA_sublist {K V : Type} [DecidableEq K] (m : AList K V)
    (k : K) :
    (keysA (eraseA m k)).Sublist (keysA m) := by
  induction m with
  | nil => simp [eraseA, keysA]
  | cons p t ih =>
      rcases p with ⟨a, b⟩
      rw [eraseA_cons]
      by_cases hak : a = k
      · rw [if_pos hak]
        exact ih.trans (List.sublist_cons_self _ _)
      · rw [if_neg hak]
        simpa [keysA] using ih.cons₂ a

theorem nodup_keysA_eraseA {K V : Type} [DecidableEq K] {m : AList K V}
    (hnd : (keysA m).Nodup) (k : K) :
    (keysA (eraseA m k)).Nodup :=
  (keysA_eraseA_sublist m k).nodup hnd

end SafeVault

namespace SafeVault

/-! ## Counting lemmas for the map model -/

theorem updateMap_of_not_mem {K V : Type} [DecidableEq K]
    {m : AList K V} {k : K} (v : V) (h : k ∉ keysA m) :
    m.map (fun p => if p.1 = k then (k, v) else p) = m := by
  induction m with
  | nil => rfl
  | cons p t ih =>
      rcases p with ⟨a, b⟩
      simp only [keysA, List.map_cons, List.mem_cons] at h
      push_neg at h
      rw [List.map_cons]
      have : ¬ (a = k) := fun hk => h.1 hk.symm
      simp only [this, if_false]
      rw [ih (by simpa [keysA] using h.2)]

theorem countP_updateMap {K V : Type} [DecidableEq K]
    {m : AList K V} {k : K} {v : V} (v' : V) (g : K × V → Bool)
    (hnd : (keysA m).Nodup) (h : lookupA m k = some v) :
    (m.map (fun p => if p.1 = k then (k, v') else p)).countP g +
        (if g (k, v) then 1 else 0) =
      m.countP g + (if g (k, v') then 1 else 0) := by
  induction m with
  | nil => simp [lookupA] at h
  | cons p t ih =>
      rcases p with ⟨a, b⟩
      rw [lookupA_cons] at h
      simp only [keysA, List.map_cons, List.nodup_cons] at hnd
      by_cases hak : a = k
      · rw [if_pos hak] at h
        cases h
        subst hak
        have hnot : a ∉ keysA t := by simpa [keysA] using hnd.1
        rw [List.map_cons]
        simp only [if_pos rfl]
        rw [updateMap_of_not_mem v' hnot, List.countP_cons, List.countP_cons]
        rw [if_pos (trivial : True)]
        omega
      · rw [if_neg hak] at h
        have := ih (by simpa [keysA] using hnd.2) h
        rw [List.map_cons]
        simp only [hak, if_false]
        rw [List.countP_cons, List.countP_cons]
        omega

theorem countP_insertA_existing {K V : Type} [DecidableEq K]
    {m : AList K V} {k : K} {v : V} (v' : V) (g : K × V → Bool)
    (hnd : (keysA m).Nodup) (h : lookupA m k = some v) :
    (insertA m k v').countP g + (if g (k, v) then 1 else 0) =
      m.countP g + (if g (k, v') then 1 else 0) := by
  unfold insertA
  rw [if_pos (by simp [h])]
  exact countP_updateMap v' g hnd h

theorem countP_insertA_fresh {K V : Type} [DecidableEq K]
    {m : AList K V} {k : K} (v : V) (g : K × V → Bool)
    (h : lookupA m k = none) :
    (insertA m k v).countP g = m.countP g + (if g (k, v) then 1 else 0) := by
  unfold insertA
  rw [if_neg (by simp [h]), List.countP_append]
  simp [List.countP_cons]

theorem countP_eraseA {K V : Type} [DecidableEq K]
    {m : AList K V} {k : K} {v : V} (g : K × V → Bool)
    (hnd : (keysA m).Nodup) (h : lookupA m k = some v) :
    (eraseA m k).countP g + (if g (k, v) then 1 else 0) = m.countP g := by
  induction m with
  | nil => simp [lookupA] at h
  | cons p t ih =>
      rcases p with ⟨a, b⟩
      rw [lookupA_cons] at h
      simp only [keysA, List.map_cons, List.nodup_cons] at hnd
      rw [eraseA_cons]
      by_cases hak : a = k
      · rw [if_pos hak] at h
        cases h
        subst hak
        have hnot : lookupA t a = none := by
          rw [lookupA_eq_none_iff]
          simpa [keysA] using hnd.1
        rw [if_pos rfl, eraseA_eq_self_of_lookup_none hnot, List.countP_cons]
      · rw [if_neg hak] at h
        have := ih (by simpa [keysA] using hnd.2) h
        rw [if_neg hak, List.countP_cons, List.countP_cons]
        omega

/-! ## Behaviour of `increment_pending_op` and `new_write` / `new_read` -/

theorem incStep_ops (st : AdultLiveness) (n : Name) :
    (st.incStep n).ops = st.ops := by
  unfold AdultLiveness.incStep AdultLiveness.recompute_closest_adults
  by_cases h : (lookupA st.closest_adults n).isSome <;> simp [h]

theorem incStep_pending (st : AdultLiveness) (n : Name) :
    (st.incStep n).pending_ops =
      insertA st.pending_ops n ((lookupA st.pending_ops n).getD 0 + 1) := by
  unfold AdultLiveness.incStep AdultLiveness.recompute_closest_adults
  by_cases h : (lookupA st.closest_adults n).isSome <;> simp [h]

theorem pendingCount_incStep (st : AdultLiveness) (n x : Name) :
    (st.incStep n).pendingCount x =
      if x = n then st.pendingCount n + 1 else st.pendingCount x := by
  unfold AdultLiveness.pendingCount
  rw [incStep_pending]
  by_cases hx : x = n
  · subst hx
    rw [if_pos rfl, lookupA_insertA_self]
    rfl
  · rw [if_neg hx, lookupA_insertA_ne _ _ _ hx]

theorem increment_pending_op_ops (ts : List Name) :
    ∀ st : AdultLiveness, (st.increment_pending_op ts).ops = st.ops := by
  induction ts with
  | nil => intro st; rfl
  | cons t ts ih =>
      intro st
      rw [AdultLiveness.increment_pending_op, List.foldl_cons,
        ← AdultLiveness.increment_pending_op, ih, incStep_ops]

theorem pendingCount_increment (ts : List Name) :
    ∀ st : AdultLiveness, ts.Nodup → ∀ n,
      (st.increment_pending_op ts).pendingCount n =
        if n ∈ ts then st.pendingCount n + 1 else st.pendingCount n := by
  induction ts with
  | nil => intro st _ n; simp [AdultLiveness.increment_pending_op]
  | cons t ts ih =>
      intro st hnd n
      rw [List.nodup_cons] at hnd
      rw [AdultLiveness.increment_pending_op, List.foldl_cons,
        ← AdultLiveness.increment_pending_op, ih _ hnd.2 n,
        pendingCount_incStep]
      by_cases hn : n ∈ ts
      · have hne : ¬ n = t := fun h => hnd.1 (h ▸ hn)
        simp [hn, hne, List.mem_cons]
      · by_cases hnt : n = t
        · subst hnt
          simp [hn, pendingCount_incStep]
        · simp [hn, hnt, List.mem_cons]

end SafeVault

namespace SafeVault

theorem new_write_of_isSome {st : AdultLiveness} {mid : MessageId}
    (origin : Option Nat) (address : BlobAddress) (targets : List Name)
    (h : (lookupA st.ops mid).isSome = true) :
    st.new_write mid origin address targets = (st, false) := by
  rw [AdultLiveness.new_write, if_pos h]

theorem new_write_of_none {st : AdultLiveness} {mid : MessageId}
    (origin : Option Nat) (address : BlobAddress) (targets : List Name)
    (h : lookupA st.ops mid = none) :
    st.new_write mid origin address targets =
      (AdultLiveness.increment_pending_op
        { st with ops := insertA st.ops mid (Operation.write address origin targets) }
        targets, true) := by
  rw [AdultLiveness.new_write, if_neg (by simp [h])]

theorem new_read_of_isSome {st : AdultLiveness} {mid : MessageId}
    (address : BlobAddress) (endUser : Nat) (targets : List Name)
    (h : (lookupA st.ops mid).isSome = true) :
    st.new_read mid address endUser targets = (st, false) := by
  rw [AdultLiveness.new_read, if_pos h]

theorem new_read_of_none {st : AdultLiveness} {mid : MessageId}
    (address : BlobAddress) (endUser : Nat) (targets : List Name)
    (h : lookupA st.ops mid = none) :
    st.new_read mid address endUser targets =
      (AdultLiveness.increment_pending_op
        { st with ops := insertA st.ops mid (Operation.read address endUser targets) }
        targets, true) := by
  rw [AdultLiveness.new_read, if_neg (by simp [h])]

/-- C2 (amended): `new_write` and `new_read` insert an operation if and only
if the msg id is absent from `ops`, returning `true` exactly when the insert
happened; on insert every target's pending count is incremented; a duplicate
call while the operation is live leaves the tracker unchanged and returns
`false` (so each msg id yields `true` at most once while its operation
remains in `ops`). -/
theorem new_write_new_read_insert_iff_absent (st : AdultLiveness)
    (mid : MessageId) (origin : Option Nat) (endUser : Nat)
    (address : BlobAddress) (targets : List Name) (hnd : targets.Nodup) :
    (((st.new_write mid origin address targets).2 = true) ↔
        lookupA st.ops mid = none)
    ∧ ((st.new_write mid origin address targets).2 = false →
        (st.new_write mid origin address targets).1 = st)
    ∧ ((st.new_write mid origin address targets).2 = true →
        (st.new_write mid origin address targets).1.ops =
            insertA st.ops mid (Operation.write address origin targets)
        ∧ (∀ n, (st.new_write mid origin address targets).1.pendingCount n =
            if n ∈ targets then st.pendingCount n + 1 else st.pendingCount n)
        ∧ ∀ origin2 address2 targets2,
            (((st.new_write mid origin address targets).1).new_write mid
                origin2 address2 targets2).2 = false)
    ∧ (((st.new_read mid address endUser targets).2 = true) ↔
        lookupA st.ops mid = none)
    ∧ ((st.new_read mid address endUser targets).2 = false →
        (st.new_read mid address endUser targets).1 = st)
    ∧ ((st.new_read mid address endUser targets).2 = true →
        (st.new_read mid address endUser targets).1.ops =
            insertA st.ops mid (Operation.read address endUser targets)
        ∧ (∀ n, (st.new_read mid address endUser targets).1.pendingCount n =
            if n ∈ targets then st.pendingCount n + 1 else st.pendingCount n)
        ∧ ∀ address2 origin2 targets2,
            (((st.new_read mid address endUser targets).1).new_read mid
                address2 origin2 targets2).2 = false) := by
  by_cases hs : (lookupA st.ops mid).isSome
  · have hv : ∃ v, lookupA st.ops mid = some v := by
      cases h : lookupA st.ops mid
      · simp [h] at hs
      · exact ⟨_, rfl⟩
    rcases hv with ⟨v, hv⟩
    rw [new_write_of_isSome origin address targets hs,
      new_read_of_isSome address endUser targets hs]
    simp [hv]
  · have hnone : lookupA st.ops mid = none := by
      cases h : lookupA st.ops mid
      · rfl
      · simp [h] at hs
    rw [new_write_of_none origin address targets hnone,
      new_read_of_none address endUser targets hnone]
    have hops₁ :
        (AdultLiveness.increment_pending_op
          { st with ops := insertA st.ops mid (Operation.write address origin targets) }
          targets).ops =
          insertA st.ops mid (Operation.write address origin targets) := by
      rw [increment_pending_op_ops]
    have hops₂ :
        (AdultLiveness.increment_pending_op
          { st with ops := insertA st.ops mid (Operation.read address endUser targets) }
          targets).ops =
          insertA st.ops mid (Operation.read address endUser targets) := by
      rw [increment_pending_op_ops]
    refine ⟨by simp [hnone], by simp,
      fun _ => ⟨hops₁, ?_, fun origin2 address2 targets2 => ?_⟩,
      by simp [hnone], by simp,
      fun _ => ⟨hops₂, ?_, fun address2 origin2 targets2 => ?_⟩⟩
    · intro n
      rw [pendingCount_increment targets _ hnd n]
      rfl
    · refine Eq.trans (congrArg Prod.snd
        (new_write_of_isSome origin2 address2 targets2 ?_)) rfl
      rw [hops₁, lookupA_insertA_self]
      rfl
    · intro n
      rw [pendingCount_increment targets _ hnd n]
      rfl
    · refine Eq.trans (congrArg Prod.snd
        (new_read_of_isSome address2 origin2 targets2 ?_)) rfl
      rw [hops₂, lookupA_insertA_self]
      rfl

/-- C2 witness: a fresh tracker accepts a first write registration. -/
theorem new_write_new_read_insert_iff_absent_witness :
    (AdultLiveness.new.new_write 1 none ⟨false, 0⟩ [0, 1]).2 = true :=
  ((new_write_new_read_insert_iff_absent AdultLiveness.new 1 none 0 ⟨false, 0⟩
      [0, 1] (by decide)).1).mpr (by decide)

/-- C2 counterexample: `new_write` with one fixed msg id returns `true`
twice over the tracker's lifetime — after the operation completes (its last
target is removed, dropping it from `ops`), a repeated call inserts and
returns `true` again. -/
theorem new_write_true_twice :
    (AdultLiveness.new.new_write 1 none ⟨false, 0⟩ [5]).2 = true ∧
    (((AdultLiveness.new.new_write 1 none ⟨false, 0⟩ [5]).1.remove_target 1
        5).new_write 1 none ⟨false, 0⟩ [5]).2 = true := by
  decide

end SafeVault

namespace SafeVault

theorem lookupA_eq_some_of_mem {K V : Type} [DecidableEq K]
    {m : AList K V} (hnd : (keysA m).Nodup) {k : K} {v : V}
    (hmem : (k, v) ∈ m) : lookupA m k = some v := by
  rcases hl : lookupA m k with _ | v'
  · rw [lookupA_eq_none_iff] at hl
    exact absurd (by simpa [keysA] using List.mem_map_of_mem Prod.fst hmem) hl
  · have hmem' : (k, v') ∈ m := mem_of_lookupA_eq_some hl
    have hinj : ∀ ⦃x : K × V⦄, x ∈ m → ∀ ⦃y : K × V⦄, y ∈ m → x.1 = y.1 → x = y :=
      List.inj_on_of_nodup_map (by simpa [keysA] using hnd)
    have : (k, v) = (k, v') := hinj hmem hmem' rfl
    cases this
    rfl

theorem foldl_unresponsiveFold (st : AdultLiveness)
    (l : AList Name (List Name)) :
    ∀ acc : List (Name × Nat),
      l.foldl st.unresponsiveFold acc =
        acc ++ l.filterMap st.unresponsiveEntry := by
  induction l with
  | nil => intro acc; simp
  | cons a t ih =>
      intro acc
      rw [List.foldl_cons]
      cases h : st.unresponsiveEntry a <;>
        simp [AdultLiveness.unresponsiveFold, h, ih, List.filterMap_cons]

theorem find_unresponsive_eq_filterMap (st : AdultLiveness) :
    st.find_unresponsive_adults =
      st.closest_adults.filterMap st.unresponsiveEntry := by
  rw [AdultLiveness.find_unresponsive_adults]
  simpa using foldl_unresponsiveFold st st.closest_adults []

/-- C3: `find_unresponsive_adults` reports an adult `a` with count `c` if and
only if `a` has a recorded neighbour list, `c` is `a`'s pending count `p`,
and — with `q` the maximum pending count over the recorded neighbours (`0`
when there are none) — `p > MIN_PENDING_OPS`, `q > MIN_PENDING_OPS` and
`p · PENDING_OP_TOLERANCE > q` all hold.  (An empty neighbour list yields no
maximum and the loop skips the adult; that agrees with reading `q = 0`, for
which `q > MIN_PENDING_OPS` already fails.) -/
theorem find_unresponsive_adults_iff (st : AdultLiveness)
    (hnd : (keysA st.closest_adults).Nodup) (a : Name) (c : Nat) :
    (a, c) ∈ st.find_unresponsive_adults ↔
      ∃ nbrs, lookupA st.closest_adults a = some nbrs ∧
        c = st.pendingCount a ∧
        st.pendingCount a > MIN_PENDING_OPS ∧
        ((nbrs.map st.pendingCount).max?.getD 0) > MIN_PENDING_OPS ∧
        (st.pendingCount a : ℚ) * PENDING_OP_TOLERANCE >
          (((nbrs.map st.pendingCount).max?.getD 0 : Nat) : ℚ) := by
  have hfun : ∀ nbrs : List Name,
      nbrs.map (fun nb => (lookupA st.pending_ops nb).getD 0) =
        nbrs.map st.pendingCount := fun _ => rfl
  rw [find_unresponsive_eq_filterMap, List.mem_filterMap]
  constructor
  · rintro ⟨⟨a', nbrs⟩, hmem, hentry⟩
    simp only [AdultLiveness.unresponsiveEntry] at hentry
    split at hentry
    · cases hentry
    · rename_i q hq
      split at hentry
      · rename_i hcond
        rw [Option.some.injEq, Prod.mk.injEq] at hentry
        obtain ⟨rfl, rfl⟩ := hentry
        rw [hfun] at hq
        refine ⟨nbrs, lookupA_eq_some_of_mem hnd hmem, rfl, ?_, ?_, ?_⟩
        · exact hcond.1
        · rw [hq]
          exact hcond.2.1
        · rw [hq]
          exact hcond.2.2
      · cases hentry
  · rintro ⟨nbrs, hlook, rfl, h1, h2, h3⟩
    refine ⟨(a, nbrs), mem_of_lookupA_eq_some hlook, ?_⟩
    simp only [AdultLiveness.unresponsiveEntry]
    split
    · rename_i hq
      rw [hfun, List.max?_eq_none_iff] at hq
      rw [hq] at h2
      simp [MIN_PENDING_OPS] at h2
    · rename_i q hq
      rw [hfun] at hq
      rw [hq] at h2 h3
      simp only [Option.getD_some] at h2 h3
      rw [if_pos ⟨h1, h2, h3⟩]
      rfl

/-- The tolerance test over `ℚ` is the exact comparison `10 * q < p`. -/
theorem tolerance_gt_iff (p q : Nat) :
    ((p : ℚ) * PENDING_OP_TOLERANCE > (q : ℚ)) ↔ 10 * q < p := by
  rw [PENDING_OP_TOLERANCE, gt_iff_lt,
    show ((p : ℚ) * (1 / 10)) = (p : ℚ) / 10 by ring,
    lt_div_iff₀ (by norm_num : (0 : ℚ) < 10),
    show ((q : ℚ) * 10) = ((10 * q : Nat) : ℚ) by push_cast; ring]
  exact Nat.cast_lt

/-- C3 witness: an adult with 140 pending operations whose sole recorded
neighbour has 11 is reported. -/
theorem find_unresponsive_adults_iff_witness :
    (1, 140) ∈ (AdultLiveness.mk [] [(1, 140), (2, 11)]
      [(1, [2]), (2, [1])]).find_unresponsive_adults :=
  (find_unresponsive_adults_iff
      (AdultLiveness.mk [] [(1, 140), (2, 11)] [(1, [2]), (2, [1])])
      (by decide) 1 140).mpr
    ⟨[2], by decide, by decide, by decide, by decide,
      (tolerance_gt_iff 140 11).mpr (by decide)⟩

end SafeVault

namespace SafeVault

theorem xor_lt_of_le_of_ne {a x y : Name} (hle : a ^^^ x ≤ a ^^^ y)
    (hne : x ≠ y) : a ^^^ x < a ^^^ y := by
  rcases Nat.lt_or_ge (a ^^^ x) (a ^^^ y) with h | h
  · exact h
  · exfalso
    have heq : a ^^^ x = a ^^^ y := Nat.le_antisymm hle h
    apply hne
    have : a ^^^ (a ^^^ x) = a ^^^ (a ^^^ y) := by rw [heq]
    rwa [← Nat.xor_assoc, Nat.xor_self, Nat.zero_xor,
      ← Nat.xor_assoc, Nat.xor_self, Nat.zero_xor] at this

theorem lookupA_mapByKey {V W : Type} (l : AList Name V) (g : Name → W)
    (k : Name) :
    lookupA (l.map (fun p => (p.1, g p.1))) k =
      if (lookupA l k).isSome then some (g k) else none := by
  induction l with
  | nil => simp [lookupA]
  | cons p t ih =>
      rcases p with ⟨a, b⟩
      rw [List.map_cons]
      rw [lookupA_cons, lookupA_cons]
      by_cases hak : a = k
      · subst hak
        simp
      · rw [if_neg hak, if_neg hak, ih]

theorem lookupA_recompute (st : AdultLiveness) (k : Name) :
    lookupA (st.recompute_closest_adults).closest_adults k =
      if (lookupA st.closest_adults k).isSome then
        some (
          (List.insertionSort (fun lhs rhs => k ^^^ lhs ≤ k ^^^ rhs)
            ((keysA st.closest_adults).filter (fun name => name ≠ k))).take
              NEIGHBOUR_COUNT)
      else none := by
  rw [AdultLiveness.recompute_closest_adults]
  exact lookupA_mapByKey st.closest_adults
    (fun x =>
      (List.insertionSort (fun lhs rhs => x ^^^ lhs ≤ x ^^^ rhs)
        ((keysA st.closest_adults).filter (fun name => name ≠ x))).take
          NEIGHBOUR_COUNT) k

/-- C8: after `recompute_closest_adults`, the value recorded for every key
`a` is exactly the `NEIGHBOUR_COUNT = 2` keys other than `a` nearest to `a`
in XOR-distance among the current keys (fewer when fewer other keys exist),
listed in strictly ascending order of distance.  Distances from `a` to
distinct names are distinct, so the strict order also settles the claim's
tie-break clause vacuously. -/
theorem recompute_closest_adults_correct (st : AdultLiveness)
    (hnd : (keysA st.closest_adults).Nodup) (a : Name) (v : List Name)
    (hv : lookupA (st.recompute_closest_adults).closest_adults a = some v) :
    List.Pairwise (fun x y => a ^^^ x < a ^^^ y) v
    ∧ (∀ x ∈ v, x ∈ keysA st.closest_adults ∧ x ≠ a)
    ∧ v.Nodup
    ∧ v.length = min NEIGHBOUR_COUNT
        ((keysA st.closest_adults).filter (fun name => name ≠ a)).length
    ∧ (∀ y ∈ keysA st.closest_adults, y ≠ a → y ∉ v →
        ∀ x ∈ v, a ^^^ x < a ^^^ y) := by
  rw [lookupA_recompute] at hv
  by_cases hin : (lookupA st.closest_adults a).isSome
  swap
  · rw [if_neg hin] at hv
    cases hv
  rw [if_pos hin, Option.some.injEq] at hv
  set others := (keysA st.closest_adults).filter (fun name => name ≠ a)
    with hothers
  set le := fun lhs rhs : Name => a ^^^ lhs ≤ a ^^^ rhs with hle
  set sorted := List.insertionSort le others with hsortdef
  have hperm : sorted.Perm others := List.perm_insertionSort le others
  have hothersnd : others.Nodup := hnd.filter _
  have hsortnd : sorted.Nodup := hperm.nodup_iff.mpr hothersnd
  haveI : IsTotal Name le := ⟨fun x y => Nat.le_total _ _⟩
  haveI : IsTrans Name le := ⟨fun x y z => Nat.le_trans⟩
  have hsorted : List.Pairwise le sorted := List.sorted_insertionSort le others
  have hstrict : List.Pairwise (fun x y => a ^^^ x < a ^^^ y) sorted := by
    have hand := hsorted.and hsortnd
    exact hand.imp (fun hp => by
      rcases hp with ⟨h1, h2⟩
      exact xor_lt_of_le_of_ne h1 h2)
  have hvtake : v = sorted.take NEIGHBOUR_COUNT := hv.symm
  have hsub : v.Sublist sorted := by
    rw [hvtake]
    exact List.take_sublist _ _
  have hmemothers : ∀ x ∈ v, x ∈ others := fun x hx =>
    hperm.mem_iff.mp (hsub.subset hx)
  refine ⟨hstrict.sublist hsub, ?_, hsub.nodup hsortnd, ?_, ?_⟩
  · intro x hx
    have := hmemothers x hx
    rw [hothers, List.mem_filter] at this
    exact ⟨this.1, by simpa using this.2⟩
  · rw [hvtake, List.length_take, hperm.length_eq]
  · intro y hy hya hyv x hx
    have hyo : y ∈ others := by
      rw [hothers, List.mem_filter]
      exact ⟨hy, by simpa using hya⟩
    have hys : y ∈ sorted := hperm.mem_iff.mpr hyo
    have hsplit : v ++ sorted.drop NEIGHBOUR_COUNT = sorted := by
      rw [hvtake]
      exact List.take_append_drop _ _
    have hydrop : y ∈ sorted.drop NEIGHBOUR_COUNT := by
      rcases (List.mem_append.mp (by rw [hsplit]; exact hys)) with h | h
      · exact absurd h hyv
      · exact h
    have hpw := hstrict
    rw [← hsplit] at hpw
    exact (List.pairwise_append.mp hpw).2.2 x hx y hydrop

/-- C8 witness: with keys `{1, 2, 3}`, the recomputed neighbours of `1` are
`[3, 2]` (distances 2 and 3), in strictly ascending distance order. -/
theorem recompute_closest_adults_correct_witness :
    List.Pairwise (fun x y => 1 ^^^ x < 1 ^^^ y) [3, 2] :=
  (recompute_closest_adults_correct
    (AdultLiveness.mk [] [] [(1, []), (2, []), (3, [])])
    (by decide) 1 [3, 2] (by decide)).1

end SafeVault

namespace SafeVault

theorem mem_insertA_elim {K V : Type} [DecidableEq K] {m : AList K V}
    {k : K} {v : V} {p : K × V} (h : p ∈ insertA m k v) :
    p = (k, v) ∨ (p ∈ m ∧ p.1 ≠ k) := by
  unfold insertA at h
  by_cases hs : (lookupA m k).isSome
  · rw [if_pos hs] at h
    rcases List.mem_map.mp h with ⟨q, hq, himg⟩
    by_cases hqk : q.1 = k
    · left
      rw [← himg, if_pos hqk]
    · right
      rw [← himg, if_neg hqk]
      exact ⟨hq, hqk⟩
  · rw [if_neg hs] at h
    rcases List.mem_append.mp h with h | h
    · right
      refine ⟨h, fun hk => ?_⟩
      have : k ∈ keysA m := by
        rw [keysA]
        exact hk ▸ List.mem_map_of_mem Prod.fst h
      rw [← lookupA_isSome_iff_mem_keysA] at this
      exact hs this
    · left
      simpa using h

theorem mem_eraseA_subset {K V : Type} [DecidableEq K] {m : AList K V}
    {k : K} {p : K × V} (h : p ∈ eraseA m k) : p ∈ m :=
  (List.mem_filter.mp h).1

theorem targets_removeTarget (op : Operation) (n : Name) :
    (op.removeTarget n).targets = op.targets.erase n := by
  cases op <;> rfl

theorem remove_target_pending (st : AdultLiveness) (m : MessageId)
    (n : Name) :
    (st.remove_target m n).pending_ops =
      match lookupA st.pending_ops n with
      | some count =>
          if count > 0 then insertA st.pending_ops n (count - 1)
          else st.pending_ops
      | none => st.pending_ops := rfl

theorem remove_target_closest (st : AdultLiveness) (m : MessageId)
    (n : Name) :
    (st.remove_target m n).closest_adults = st.closest_adults := rfl

theorem pendingCount_remove_target_self (st : AdultLiveness)
    (m : MessageId) (n : Name) :
    (st.remove_target m n).pendingCount n = st.pendingCount n - 1 := by
  unfold AdultLiveness.pendingCount
  rw [show (st.remove_target m n).pending_ops = _ from remove_target_pending st m n]
  rcases h : lookupA st.pending_ops n with _ | c
  · simp [h]
  · rcases Nat.eq_zero_or_pos c with rfl | hc
    · simp [h]
    · simp only [h, if_pos hc]
      rw [lookupA_insertA_self]
      rfl

theorem pendingCount_remove_target_ne (st : AdultLiveness)
    (m : MessageId) {n x : Name} (hx : x ≠ n) :
    (st.remove_target m n).pendingCount x = st.pendingCount x := by
  unfold AdultLiveness.pendingCount
  rw [show (st.remove_target m n).pending_ops = _ from remove_target_pending st m n]
  rcases h : lookupA st.pending_ops n with _ | c
  · rfl
  · rcases Nat.eq_zero_or_pos c with rfl | hc
    · simp
    · simp only [if_pos hc]
      rw [lookupA_insertA_ne _ _ _ hx]

theorem remove_target_ops_of_none {st : AdultLiveness} {m : MessageId}
    (n : Name) (h : lookupA st.ops m = none) :
    (st.remove_target m n).ops = st.ops := by
  unfold AdultLiveness.remove_target
  rw [h]
  exact eraseA_eq_self_of_lookup_none h

theorem remove_target_ops_of_some {st : AdultLiveness} {m : MessageId}
    {op : Operation} (n : Name) (h : lookupA st.ops m = some op) :
    (st.remove_target m n).ops =
      if (op.removeTarget n).targets.isEmpty
      then eraseA (insertA st.ops m (op.removeTarget n)) m
      else insertA st.ops m (op.removeTarget n) := by
  unfold AdultLiveness.remove_target
  rw [h]

theorem remove_target_keys_nodup {st : AdultLiveness}
    (hknd : (keysA st.ops).Nodup) (m : MessageId) (n : Name) :
    (keysA (st.remove_target m n).ops).Nodup := by
  rcases h : lookupA st.ops m with _ | op
  · rw [remove_target_ops_of_none n h]
    exact hknd
  · rw [remove_target_ops_of_some n h]
    by_cases hemp : (op.removeTarget n).targets.isEmpty
    · rw [if_pos hemp]
      exact nodup_keysA_eraseA (nodup_keysA_insertA hknd _ _) _
    · rw [if_neg hemp]
      exact nodup_keysA_insertA hknd _ _

theorem remove_target_targets_nodup {st : AdultLiveness}
    (htnd : ∀ p ∈ st.ops, (Operation.targets p.2).Nodup)
    (m : MessageId) (n : Name) :
    ∀ p ∈ (st.remove_target m n).ops, (Operation.targets p.2).Nodup := by
  intro p hp
  rcases h : lookupA st.ops m with _ | op
  · rw [remove_target_ops_of_none n h] at hp
    exact htnd p hp
  · rw [remove_target_ops_of_some n h] at hp
    have hp' : p ∈ insertA st.ops m (op.removeTarget n) := by
      by_cases hemp : (op.removeTarget n).targets.isEmpty
      · rw [if_pos hemp] at hp
        exact mem_eraseA_subset hp
      · rw [if_neg hemp] at hp
        exact hp
    rcases mem_insertA_elim hp' with rfl | ⟨hmem, _⟩
    · rw [targets_removeTarget]
      exact (htnd _ (mem_of_lookupA_eq_some h)).erase n
    · exact htnd p hmem

theorem liveCount_remove_target_none {st : AdultLiveness} {m : MessageId}
    (n : Name) (h : lookupA st.ops m = none) (x : Name) :
    (st.remove_target m n).liveCount x = st.liveCount x := by
  unfold AdultLiveness.liveCount
  rw [remove_target_ops_of_none n h]

theorem liveCount_remove_target_some {st : AdultLiveness} {m : MessageId}
    {op : Operation} (hknd : (keysA st.ops).Nodup)
    (h : lookupA st.ops m = some op) (n x : Name) :
    (st.remove_target m n).liveCount x +
        (if x ∈ op.targets then 1 else 0) =
      st.liveCount x + (if x ∈ (op.removeTarget n).targets then 1 else 0) := by
  unfold AdultLiveness.liveCount
  rw [remove_target_ops_of_some n h]
  have hins := countP_insertA_existing (m := st.ops)
    (op.removeTarget n) (fun p => decide (x ∈ (Operation.targets p.2))) hknd h
  by_cases hemp : (op.removeTarget n).targets.isEmpty
  · rw [if_pos hemp]
    have hempty : (op.removeTarget n).targets = [] :=
      List.isEmpty_iff.mp hemp
    have hers := countP_eraseA (m := insertA st.ops m (op.removeTarget n))
      (fun p => decide (x ∈ (Operation.targets p.2)))
      (nodup_keysA_insertA hknd _ _) (lookupA_insertA_self st.ops m _)
    by_cases hxop : x ∈ op.targets <;>
      by_cases hxop' : x ∈ (op.removeTarget n).targets <;>
        simp [hxop, hxop', hempty] at hins hers ⊢ <;> omega
  · rw [if_neg hemp]
    by_cases hxop : x ∈ op.targets <;>
      by_cases hxop' : x ∈ (op.removeTarget n).targets <;>
        simp [hxop, hxop'] at hins ⊢ <;> omega

end SafeVault

namespace SafeVault

theorem liveCount_pos {st : AdultLiveness} {m : MessageId} {op : Operation}
    (h : lookupA st.ops m = some op) {n : Name} (hn : n ∈ op.targets) :
    0 < st.liveCount n := by
  unfold AdultLiveness.liveCount
  rw [List.countP_pos_iff]
  exact ⟨(m, op), mem_of_lookupA_eq_some h, by simpa using hn⟩

theorem trackerInv_remove_target_wf {st : AdultLiveness}
    (hinv : TrackerInv st) {m : MessageId} {n : Name} {op : Operation}
    (hop : lookupA st.ops m = some op) (hn : n ∈ op.targets) :
    TrackerInv (st.remove_target m n) := by
  obtain ⟨hknd, htnd, hpc⟩ := hinv
  refine ⟨remove_target_keys_nodup hknd m n,
    remove_target_targets_nodup htnd m n, fun x => ?_⟩
  have hlc := liveCount_remove_target_some hknd hop n x
  have htn : (Operation.targets op).Nodup :=
    htnd _ (mem_of_lookupA_eq_some hop)
  by_cases hx : x = n
  · subst hx
    rw [pendingCount_remove_target_self, hpc x]
    have hxe : x ∉ (op.removeTarget x).targets := by
      rw [targets_removeTarget]
      intro hmem
      exact ((List.Nodup.mem_erase_iff htn).mp hmem).1 rfl
    simp only [hn, if_pos, hxe, if_neg, if_true, if_false] at hlc
    omega
  · rw [pendingCount_remove_target_ne st m hx, hpc x]
    have hiff : x ∈ (op.removeTarget n).targets ↔ x ∈ op.targets := by
      rw [targets_removeTarget]
      exact List.mem_erase_of_ne hx
    by_cases hxt : x ∈ op.targets
    · simp only [hxt, hiff.mpr hxt, if_true] at hlc
      omega
    · have : x ∉ (op.removeTarget n).targets := fun hc => hxt (hiff.mp hc)
      simp only [hxt, this, if_false] at hlc
      omega

end SafeVault

namespace SafeVault

theorem retain_inner_fold (name : Name) (msgs : List MessageId) :
    ∀ st : AdultLiveness,
      (keysA st.ops).Nodup →
      (∀ p ∈ st.ops, (Operation.targets p.2).Nodup) →
      (∀ x, x ≠ name → st.pendingCount x = st.liveCount x) →
      lookupA st.pending_ops name = none →
      (∀ p ∈ st.ops, name ∈ Operation.targets p.2 → p.1 ∈ msgs) →
      (keysA (msgs.foldl (fun st m => st.remove_target m name) st).ops).Nodup ∧
      (∀ p ∈ (msgs.foldl (fun st m => st.remove_target m name) st).ops,
          (Operation.targets p.2).Nodup) ∧
      (∀ x, x ≠ name →
        (msgs.foldl (fun st m => st.remove_target m name) st).pendingCount x =
          (msgs.foldl (fun st m => st.remove_target m name) st).liveCount x) ∧
      lookupA
        (msgs.foldl (fun st m => st.remove_target m name) st).pending_ops
        name = none ∧
      (∀ p ∈ (msgs.foldl (fun st m => st.remove_target m name) st).ops,
          name ∉ Operation.targets p.2) := by
  induction msgs with
  | nil =>
      intro st hknd htnd hpc hnone hcover
      exact ⟨hknd, htnd, hpc, hnone,
        fun p hp hmem => by simpa using hcover p hp hmem⟩
  | cons m rest ih =>
      intro st hknd htnd hpc hnone hcover
      rw [List.foldl_cons]
      have hpend₁ : (st.remove_target m name).pending_ops = st.pending_ops := by
        rw [remove_target_pending, hnone]
      refine ih (st.remove_target m name)
        (remove_target_keys_nodup hknd m name)
        (remove_target_targets_nodup htnd m name)
        (fun x hx => ?_) (by rw [hpend₁]; exact hnone) (fun p hp hmem => ?_)
      · rw [pendingCount_remove_target_ne st m hx, hpc x hx]
        rcases hm : lookupA st.ops m with _ | op
        · rw [liveCount_remove_target_none name hm]
        · have hlc := liveCount_remove_target_some hknd hm name x
          have hiff : x ∈ (op.removeTarget name).targets ↔ x ∈ op.targets := by
            rw [targets_removeTarget]
            exact List.mem_erase_of_ne hx
          by_cases hxt : x ∈ op.targets
          · simp only [hxt, hiff.mpr hxt, if_true] at hlc
            omega
          · have hx2 : x ∉ (op.removeTarget name).targets :=
              fun hc => hxt (hiff.mp hc)
            simp only [hxt, hx2, if_false] at hlc
            omega
      · rcases hm : lookupA st.ops m with _ | op
        · rw [remove_target_ops_of_none name hm] at hp
          rcases List.mem_cons.mp (hcover p hp hmem) with hpm | hpm
          · exfalso
            have : m ∈ keysA st.ops := by
              rw [keysA]
              exact hpm ▸ List.mem_map_of_mem Prod.fst hp
            rw [← lookupA_isSome_iff_mem_keysA, hm] at this
            cases this
          · exact hpm
        · rw [remove_target_ops_of_some name hm] at hp
          have hp' : p ∈ insertA st.ops m (op.removeTarget name) := by
            by_cases hemp : (op.removeTarget name).targets.isEmpty
            · rw [if_pos hemp] at hp
              exact mem_eraseA_subset hp
            · rw [if_neg hemp] at hp
              exact hp
          rcases mem_insertA_elim hp' with rfl | ⟨hpmem, hpne⟩
          · exfalso
            rw [targets_removeTarget] at hmem
            exact ((List.Nodup.mem_erase_iff
              (htnd _ (mem_of_lookupA_eq_some hm))).mp hmem).1 rfl
          · rcases List.mem_cons.mp (hcover p hpmem hmem) with hpm | hpm
            · exact absurd hpm hpne
            · exact hpm

theorem trackerInv_retainStep (members : List Name) {st : AdultLiveness}
    (hinv : TrackerInv st) (name : Name) :
    TrackerInv (AdultLiveness.retainStep members st name) := by
  obtain ⟨hknd, htnd, hpc⟩ := hinv
  unfold AdultLiveness.retainStep
  by_cases hmem : name ∈ members
  · rw [if_pos hmem]
    exact ⟨hknd, htnd, hpc⟩
  · rw [if_neg hmem]
    have h := retain_inner_fold name
      (keysA (AdultLiveness.mk st.ops (eraseA st.pending_ops name)
        (eraseA st.closest_adults name)).ops)
      (AdultLiveness.mk st.ops (eraseA st.pending_ops name)
        (eraseA st.closest_adults name))
      hknd htnd
      (fun x hx => by
        show (lookupA (eraseA st.pending_ops name) x).getD 0 = _
        rw [lookupA_eraseA_ne _ _ hx]
        exact hpc x)
      (lookupA_eraseA_self _ _)
      (fun p hp _ => by
        rw [keysA]
        exact List.mem_map_of_mem _ hp)
    obtain ⟨hk, ht, hx, hnone, hnotin⟩ := h
    refine ⟨hk, ht, fun x => ?_⟩
    by_cases hxn : x = name
    · subst hxn
      show (lookupA _ x).getD 0 = _
      rw [hnone]
      have : (AdultLiveness.liveCount _ x) = 0 :=
        List.countP_eq_zero.mpr (fun p hp => by
          simpa using hnotin p hp)
      rw [this]
      rfl
    · exact hx x hxn

end SafeVault

namespace SafeVault

theorem trackerInv_recompute {st : AdultLiveness} (h : TrackerInv st) :
    TrackerInv st.recompute_closest_adults := by
  obtain ⟨a, b, c⟩ := h
  exact ⟨a, b, c⟩

theorem trackerInv_foldl_retainStep (members : List Name)
    (names : List Name) :
    ∀ st : AdultLiveness, TrackerInv st →
      TrackerInv (names.foldl (AdultLiveness.retainStep members) st) := by
  induction names with
  | nil => intro st h; exact h
  | cons a t ih =>
      intro st h
      rw [List.foldl_cons]
      exact ih _ (trackerInv_retainStep members h a)

theorem trackerInv_retain {st : AdultLiveness} (h : TrackerInv st)
    (members : List Name) :
    TrackerInv (st.retain_members_only members) :=
  trackerInv_recompute
    (trackerInv_foldl_retainStep members (keysA st.closest_adults) st h)

theorem trackerInv_register {st : AdultLiveness} (h : TrackerInv st)
    {mid : MessageId} (hnone : lookupA st.ops mid = none) (op : Operation)
    (hnd : (Operation.targets op).Nodup) :
    TrackerInv (AdultLiveness.increment_pending_op
      (AdultLiveness.mk (insertA st.ops mid op) st.pending_ops
        st.closest_adults) (Operation.targets op)) := by
  obtain ⟨hknd, htnd, hpc⟩ := h
  have hops : (AdultLiveness.increment_pending_op
      (AdultLiveness.mk (insertA st.ops mid op) st.pending_ops
        st.closest_adults) (Operation.targets op)).ops =
      insertA st.ops mid op := increment_pending_op_ops _ _
  refine ⟨by rw [hops]; exact nodup_keysA_insertA hknd _ _,
    fun p hp => ?_, fun x => ?_⟩
  · rw [hops] at hp
    rcases mem_insertA_elim hp with rfl | ⟨hpm, _⟩
    · exact hnd
    · exact htnd p hpm
  · rw [pendingCount_increment _ _ hnd x]
    show (if _ then (AdultLiveness.pendingCount _ x) + 1
      else AdultLiveness.pendingCount _ x) = _
    unfold AdultLiveness.liveCount
    rw [hops, countP_insertA_fresh op _ hnone]
    have hcast : AdultLiveness.pendingCount
        (AdultLiveness.mk (insertA st.ops mid op) st.pending_ops
          st.closest_adults) x = st.pendingCount x := rfl
    rw [hcast, hpc x]
    unfold AdultLiveness.liveCount
    by_cases hx : x ∈ Operation.targets op <;> simp [hx]

theorem trackerInv_applyCall {st : AdultLiveness} (h : TrackerInv st)
    {c : LivenessCall} (hwf : wfCall st c) : TrackerInv (applyCall st c) := by
  cases c with
  | newWrite mid origin address targets =>
      show TrackerInv (st.new_write mid origin address targets).1
      by_cases hs : (lookupA st.ops mid).isSome
      · rw [new_write_of_isSome origin address targets hs]
        exact h
      · have hnone : lookupA st.ops mid = none := by
          cases hm : lookupA st.ops mid
          · rfl
          · simp [hm] at hs
        rw [new_write_of_none origin address targets hnone]
        exact trackerInv_register h hnone
          (Operation.write address origin targets) hwf
  | newRead mid address origin targets =>
      show TrackerInv (st.new_read mid address origin targets).1
      by_cases hs : (lookupA st.ops mid).isSome
      · rw [new_read_of_isSome address origin targets hs]
        exact h
      · have hnone : lookupA st.ops mid = none := by
          cases hm : lookupA st.ops mid
          · rfl
          · simp [hm] at hs
        rw [new_read_of_none address origin targets hnone]
        exact trackerInv_register h hnone
          (Operation.read address origin targets) hwf
  | removeTarget m n =>
      rcases hwf with ⟨op, hop, hn⟩
      exact trackerInv_remove_target_wf h hop hn
  | retainMembersOnly members => exact trackerInv_retain h members

theorem trackerInv_runCalls_aux (calls : List LivenessCall) :
    ∀ st : AdultLiveness, TrackerInv st → wfTrace st calls →
      TrackerInv (calls.foldl applyCall st) := by
  induction calls with
  | nil => intro st h _; exact h
  | cons c cs ih =>
      intro st h hwf
      rw [List.foldl_cons]
      exact ih _ (trackerInv_applyCall h hwf.1) hwf.2

/-- C1 (amended): starting from a fresh tracker, after any sequence of
`new_write` / `new_read` / `remove_target` / `retain_members_only` calls in
which every `remove_target(msg_id, name)` is applied to a live operation
that has `name` among its targets (as at the tracker's call sites, which
remove a responding fan-out target) and every registered target set is
duplicate-free (as a `BTreeSet` guarantees), the stored count
`pending_ops[n]` — absent entries reading as zero — equals the number of
live operations whose target set contains `n`, for every name `n`. -/
theorem pending_op_accounting (calls : List LivenessCall)
    (hwf : wfTrace AdultLiveness.new calls) :
    (∀ n, (runCalls calls).pendingCount n = (runCalls calls).liveCount n) ∧
    (∀ n c, lookupA (runCalls calls).pending_ops n = some c →
      c = (runCalls calls).liveCount n) := by
  have hnew : TrackerInv AdultLiveness.new :=
    ⟨List.nodup_nil, fun p hp => absurd hp (List.not_mem_nil p), fun n => rfl⟩
  have h := trackerInv_runCalls_aux calls AdultLiveness.new hnew hwf
  refine ⟨h.2.2, fun n c hc => ?_⟩
  have hthis : (runCalls calls).pendingCount n = (runCalls calls).liveCount n :=
    h.2.2 n
  unfold AdultLiveness.pendingCount at hthis
  rw [hc] at hthis
  exact hthis

/-- C1 witness: a single registered write with target `5` leaves
`pending_ops[5] = 1`, matching the one live operation that targets `5`. -/
theorem pending_op_accounting_witness :
    (runCalls [LivenessCall.newWrite 1 none ⟨false, 0⟩ [5]]).pendingCount 5 =
      (runCalls [LivenessCall.newWrite 1 none ⟨false, 0⟩ [5]]).liveCount 5 :=
  (pending_op_accounting [LivenessCall.newWrite 1 none ⟨false, 0⟩ [5]]
    ⟨show ([5] : List Name).Nodup by decide, trivial⟩).1 5

/-- C1 counterexample: a `remove_target` call whose msg id matches no live
operation still decrements the pending count, breaking the accounting: after
`new_write(1, targets = {5})` and `remove_target(2, 5)`, name `5` is tracked
with stored count `0`, yet one live operation still targets `5`. -/
theorem pending_op_accounting_break :
    lookupA (runCalls [LivenessCall.newWrite 1 none ⟨false, 0⟩ [5],
        LivenessCall.removeTarget 2 5]).pending_ops 5 = some 0 ∧
    (runCalls [LivenessCall.newWrite 1 none ⟨false, 0⟩ [5],
        LivenessCall.removeTarget 2 5]).liveCount 5 = 1 := by
  decide

end SafeVault

namespace SafeVault

theorem mem_btreeSet (l : List Name) (x : Name) :
    x ∈ btreeSet l ↔ x ∈ l := by
  unfold btreeSet
  rw [List.Perm.mem_iff (List.perm_insertionSort _ _)]
  exact List.mem_dedup

/-- C4: when the elder correlates a `GetBlob` response, a client query reply
is produced exactly when the correlation id matches a live `Read` operation,
and even then it is dropped when the responding source is a full adult and
the response is a failure; a correlation id matching no live `Read`
operation (absent, or a `Write`) produces no client reply. -/
theorem record_adult_read_liveness_forwarding (st : BlobRecords)
    (correlation_id : MessageId) (res : Except ErrorMessage Blob)
    (src : Name) :
    ∃ st' duties,
      st.record_adult_read_liveness correlation_id (QueryResponse.getBlob res)
          src = Except.ok (st', duties) ∧
      duties.filter NodeDuty.isClientQueryReply =
        (match lookupA st.adult_liveness.ops correlation_id with
         | some (Operation.read _ origin _) =>
             if src ∈ st.full_adults ∧
                 (QueryResponse.getBlob res).is_success = false then []
             else
               [NodeDuty.send (build_client_query_response
                 (QueryResponse.getBlob res) correlation_id origin)]
         | _ => []) := by
  refine ⟨_, _, rfl, ?_⟩
  rcases hl : lookupA st.adult_liveness.ops correlation_id with _ | op
  · simp only [BlobRecords.record_adult_read_liveness,
      AdultLiveness.record_adult_read_liveness, hl, Option.bind_none]
    split <;>
      simp [NodeDuty.isClientQueryReply, List.filter_append]
  · cases op with
    | read a o ts =>
        simp only [BlobRecords.record_adult_read_liveness,
          AdultLiveness.record_adult_read_liveness, hl, Option.bind_some]
        by_cases hcond : src ∈ st.full_adults ∧
            (QueryResponse.getBlob res).is_success = false
        · rw [if_pos hcond]
          split <;>
            simp [NodeDuty.isClientQueryReply, List.filter_append, hcond]
        · rw [if_neg hcond]
          split <;>
            simp [NodeDuty.isClientQueryReply, List.filter_append, hcond,
              build_client_query_response]
    | write a o ts =>
        simp only [BlobRecords.record_adult_read_liveness,
          AdultLiveness.record_adult_read_liveness, hl, Option.bind_some]
        split <;>
          simp [NodeDuty.isClientQueryReply, List.filter_append]

end SafeVault

namespace SafeVault

/-- C5: on a read, the target set is the union (as a `BTreeSet`) of the
non-full adults closest to the address with the entire `FullAdults` set —
hence it contains every full adult; when the union is empty the client gets
a `NoAdults(our_prefix)` error; when the msg id is a duplicate the result is
`NoOp` with no fan-out; when the read registers freshly, a Chunks `Get`
query is fanned out to every target with aggregation `None`. -/
theorem blob_records_get_behaviour (reader : AdultReader) (st : BlobRecords)
    (address : BlobAddress) (msg_id : MessageId) (origin : Nat) :
    (∀ x, x ∈ btreeSet (st.get_holders_for_chunk reader address.name ++
          st.full_adults) ↔
        (x ∈ st.get_holders_for_chunk reader address.name ∨
          x ∈ st.full_adults))
    ∧ (∀ x ∈ st.full_adults,
        x ∈ btreeSet (st.get_holders_for_chunk reader address.name ++
          st.full_adults))
    ∧ (btreeSet (st.get_holders_for_chunk reader address.name ++
          st.full_adults) = [] →
        (st.get reader address msg_id origin).2 =
          BlobRecords.send_error (Error.noAdults reader.ourPfx) msg_id origin)
    ∧ (btreeSet (st.get_holders_for_chunk reader address.name ++
          st.full_adults) ≠ [] →
        ((st.adult_liveness.new_read msg_id address origin
            (btreeSet (st.get_holders_for_chunk reader address.name ++
              st.full_adults))).2 = false →
          (st.get reader address msg_id origin).2 = NodeDuty.noOp)
        ∧ ((st.adult_liveness.new_read msg_id address origin
            (btreeSet (st.get_holders_for_chunk reader address.name ++
              st.full_adults))).2 = true →
          (st.get reader address msg_id origin).2 =
            NodeDuty.sendToNodes
              (btreeSet (st.get_holders_for_chunk reader address.name ++
                st.full_adults))
              (NodeMsg.nodeQueryChunksGet address origin msg_id)
              Aggregation.none)) := by
  refine ⟨fun x => by rw [mem_btreeSet, List.mem_append],
    fun x hx => by rw [mem_btreeSet, List.mem_append]; exact Or.inr hx,
    fun hemp => ?_, fun hne => ⟨fun hdup => ?_, fun hfresh => ?_⟩⟩
  · unfold BlobRecords.get
    rw [if_pos (by rw [List.isEmpty_iff]; exact hemp)]
  · unfold BlobRecords.get
    rw [if_neg (by rw [List.isEmpty_iff]; exact hne)]
    rw [if_neg (by rw [hdup]; exact Bool.false_ne_true)]
  · unfold BlobRecords.get
    rw [if_neg (by rw [List.isEmpty_iff]; exact hne)]
    rw [if_pos hfresh]

/-- C9 (amended): the elder-side delete path computes its targets as the
write path does (the non-full adults closest to the address, as a
`BTreeSet`) and unconditionally emits the `DeletePrivate` fan-out to them
with aggregation `AtDestination` — unlike `send_chunks_to_adults`, it has no
empty-target check, so an empty target set yields a fan-out with no
recipients rather than a `NoAdults(our_prefix)` client error. -/
theorem blob_records_delete_unconditional (reader : AdultReader)
    (st : BlobRecords) (address : BlobAddress) (msg_id : MessageId)
    (client_signed : Nat) (origin : Nat) :
    st.delete reader address msg_id client_signed origin =
      (st, NodeDuty.sendToNodes
        (btreeSet (st.get_holders_for_chunk reader address.name))
        (NodeMsg.nodeCmdChunks (BlobWrite.deletePrivate address)
          client_signed origin msg_id)
        Aggregation.atDestination)
    ∧ ∀ x, x ∈ btreeSet (st.get_holders_for_chunk reader address.name) ↔
        x ∈ st.get_holders_for_chunk reader address.name :=
  ⟨rfl, fun x => mem_btreeSet _ x⟩

/-- C9 counterexample: with no adults available, the delete path emits a
fan-out with an empty target set; it does not return the
`NoAdults(our_prefix)` client error the claim requires. -/
theorem blob_records_delete_no_noAdults_check :
    (BlobRecords.delete (AdultReader.mk (fun _ _ _ => []) 7)
        (BlobRecords.mk [] AdultLiveness.new) ⟨true, 0⟩ 1 0 0).2 =
      NodeDuty.sendToNodes []
        (NodeMsg.nodeCmdChunks (BlobWrite.deletePrivate ⟨true, 0⟩) 0 0 1)
        Aggregation.atDestination ∧
    (BlobRecords.delete (AdultReader.mk (fun _ _ _ => []) 7)
        (BlobRecords.mk [] AdultLiveness.new) ⟨true, 0⟩ 1 0 0).2 ≠
      BlobRecords.send_error (Error.noAdults 7) 1 0 := by
  constructor
  · rfl
  · intro h
    cases h

/-- C10: the elder-side write path (`write`, hence `store`,
`send_chunks_to_adults` and `delete`) never mutates the `AdultLiveness`
tracker — the returned state is the input state, so over any sequence of
writes and deletes the `ops`, `pending_ops` and `closest_adults` maps are
unchanged and tracker state only ever reflects reads registered through
`new_read`. -/
theorem blob_records_write_frame (reader : AdultReader) (st : BlobRecords)
    (w : BlobWrite) (msg_id : MessageId) (client_signed : Nat)
    (origin : Nat) :
    (st.write reader w msg_id client_signed origin).1 = st
    ∧ (st.write reader w msg_id client_signed origin).1.adult_liveness =
        st.adult_liveness
    ∧ ∀ ws : List (BlobWrite × MessageId × Nat × Nat),
        (ws.foldl
          (fun s q => (s.write reader q.1 q.2.1 q.2.2.1 q.2.2.2).1)
          st).adult_liveness = st.adult_liveness := by
  have hfst : ∀ (s : BlobRecords) (w : BlobWrite) (mid : MessageId)
      (cs o : Nat), (s.write reader w mid cs o).1 = s := by
    intro s w mid cs o
    cases w with
    | new data =>
        show (s.store reader data mid cs o).1 = s
        unfold BlobRecords.store
        rcases validate_data_owner data cs with e | u
        · rfl
        · show (s.send_chunks_to_adults reader data mid cs o).1 = s
          unfold BlobRecords.send_chunks_to_adults
          by_cases hemp :
              (btreeSet (s.get_holders_for_chunk reader data.name)).isEmpty <;>
            simp [hemp]
    | deletePrivate address => rfl
  refine ⟨hfst st w msg_id client_signed origin,
    by rw [hfst st w msg_id client_signed origin], fun ws => ?_⟩
  induction ws generalizing st with
  | nil => rfl
  | cons q rest ih =>
      rw [List.foldl_cons, hfst st q.1 q.2.1 q.2.2.1 q.2.2.2]
      exact ih st

end SafeVault

namespace SafeVault

/-- C5 witness: with one non-full adult `3` and no full adults, a fresh read
fans out the chunk query to `[3]` with aggregation `None`. -/
theorem blob_records_get_behaviour_witness :
    ((BlobRecords.mk [] AdultLiveness.new).get
        (AdultReader.mk (fun _ _ _ => [3]) 7) ⟨false, 9⟩ 1 0).2 =
      NodeDuty.sendToNodes [3]
        (NodeMsg.nodeQueryChunksGet ⟨false, 9⟩ 0 1) Aggregation.none :=
  ((blob_records_get_behaviour (AdultReader.mk (fun _ _ _ => [3]) 7)
      (BlobRecords.mk [] AdultLiveness.new) ⟨false, 9⟩ 1 0).2.2.2
    (by decide)).2 (by decide)

/-- C6: the adult-side delete is a silent no-op when the chunk is absent;
rejects a public blob with `InvalidOperation` regardless of caller; rejects
a private blob whose owner differs from the caller with `InvalidOwners`,
leaving the store unchanged; and with a matching owner deletes the chunk,
reporting a disk failure as `FailedToDelete`. -/
theorem chunk_storage_delete_policy (s : ChunkStorage) (ioOk : Bool)
    (address : BlobAddress) (msg_id : MessageId) (origin : Nat) :
    (s.has address = false →
      s.delete ioOk address msg_id origin = (s, NodeDuty.noOp))
    ∧ (∀ name value,
        lookupA s.chunks address = some (Blob.publicB name value) →
        s.delete ioOk address msg_id origin =
          (s, NodeDuty.send (Msg.nodeEvent
            (Except.error (CmdError.data (ErrorMessage.invalidOperation msg_id)))
            (in_response_to msg_id) msg_id address.name)))
    ∧ (∀ name value owner,
        lookupA s.chunks address = some (Blob.privateB name value owner) →
        owner ≠ origin →
        s.delete ioOk address msg_id origin =
          (s, NodeDuty.send (Msg.nodeEvent
            (Except.error (CmdError.data (ErrorMessage.invalidOwners origin)))
            (in_response_to msg_id) msg_id address.name)))
    ∧ (∀ name value,
        lookupA s.chunks address = some (Blob.privateB name value origin) →
        (ioOk = true →
          s.delete ioOk address msg_id origin =
            (ChunkStorage.mk (eraseA s.chunks address),
              NodeDuty.send (Msg.nodeEvent (Except.ok ())
                (in_response_to msg_id) msg_id address.name)) ∧
          lookupA (s.delete ioOk address msg_id origin).1.chunks address =
            none)
        ∧ (ioOk = false →
          s.delete ioOk address msg_id origin =
            (s, NodeDuty.send (Msg.nodeEvent
              (Except.error (CmdError.data ErrorMessage.failedToDelete))
              (in_response_to msg_id) msg_id address.name)))) := by
  refine ⟨fun habs => ?_, fun name value hpub => ?_,
    fun name value owner hpriv hne => ?_, fun name value hpriv => ⟨fun hio => ?_, fun hio => ?_⟩⟩
  · unfold ChunkStorage.delete
    rw [if_pos habs]
  · have hhas : ¬ (s.has address = false) := by
      unfold ChunkStorage.has
      rw [hpub]
      simp
    unfold ChunkStorage.delete
    rw [if_neg hhas, hpub]
    rfl
  · have hhas : ¬ (s.has address = false) := by
      unfold ChunkStorage.has
      rw [hpriv]
      simp
    unfold ChunkStorage.delete
    rw [if_neg hhas, hpriv]
    simp only [if_neg hne]
    rfl
  · subst hio
    have hhas : ¬ (s.has address = false) := by
      unfold ChunkStorage.has
      rw [hpriv]
      simp
    constructor
    · unfold ChunkStorage.delete
      rw [if_neg hhas, hpriv]
      simp [chunkDeleteStore, Except.mapError]
    · unfold ChunkStorage.delete
      rw [if_neg hhas, hpriv]
      simp [chunkDeleteStore, lookupA_eraseA_self]
  · subst hio
    have hhas : ¬ (s.has address = false) := by
      unfold ChunkStorage.has
      rw [hpriv]
      simp
    unfold ChunkStorage.delete
    rw [if_neg hhas, hpriv]
    simp [chunkDeleteStore, Except.mapError]

/-- C6 witness: a private chunk owned by `77` is deleted when `77` asks, and
the produced event reports success; the erased store no longer holds it. -/
theorem chunk_storage_delete_policy_witness :
    (ChunkStorage.mk [(⟨true, 0⟩, Blob.privateB 0 5 77)]).delete true
        ⟨true, 0⟩ 1 77 =
      (ChunkStorage.mk (eraseA [(⟨true, 0⟩, Blob.privateB 0 5 77)] ⟨true, 0⟩),
        NodeDuty.send (Msg.nodeEvent (Except.ok ()) (in_response_to 1) 1 0)) :=
  (((chunk_storage_delete_policy
      (ChunkStorage.mk [(⟨true, 0⟩, Blob.privateB 0 5 77)]) true
      ⟨true, 0⟩ 1 77).2.2.2 0 5 (by decide)).1 rfl).1

/-- C7: `store` reports success in its `ChunkWriteHandled` event both when
the underlying store succeeds and when the chunk already exists
(`DataExists` is normalized to success, making write re-delivery
idempotent); any other store error travels as a `Data` command error in the
same event. -/
theorem chunk_storage_store_idempotent (s : ChunkStorage) (ioOk : Bool)
    (data : Blob) (msg_id : MessageId) :
    (s.has data.address = true →
      s.store ioOk data msg_id =
        (s, NodeDuty.send (Msg.nodeEvent (Except.ok ())
          (in_response_to msg_id) msg_id data.address.name)))
    ∧ (s.has data.address = false → ioOk = true →
      s.store ioOk data msg_id =
        (ChunkStorage.mk (insertA s.chunks data.address data),
          NodeDuty.send (Msg.nodeEvent (Except.ok ())
            (in_response_to msg_id) msg_id data.address.name)))
    ∧ (s.has data.address = false → ioOk = false →
      s.store ioOk data msg_id =
        (s, NodeDuty.send (Msg.nodeEvent
          (Except.error (CmdError.data (convert_to_error_message Error.io)))
          (in_response_to msg_id) msg_id data.address.name))) := by
  refine ⟨fun hhas => ?_, fun hhas hio => ?_, fun hhas hio => ?_⟩
  · unfold ChunkStorage.store ChunkStorage.try_store
    rw [hhas]
    rfl
  · subst hio
    have hl : lookupA s.chunks data.address = none := by
      unfold ChunkStorage.has at hhas
      cases hm : lookupA s.chunks data.address
      · rfl
      · rw [hm] at hhas
        cases hhas
    unfold ChunkStorage.store ChunkStorage.try_store ChunkStorage.has chunkPut
    rw [hl]
    simp [Except.map]
  · subst hio
    have hl : lookupA s.chunks data.address = none := by
      unfold ChunkStorage.has at hhas
      cases hm : lookupA s.chunks data.address
      · rfl
      · rw [hm] at hhas
        cases hhas
    unfold ChunkStorage.store ChunkStorage.try_store ChunkStorage.has chunkPut
    rw [hl]
    simp [Except.map, convert_to_error_message]

/-- C7 witness: storing into an empty store succeeds and the event reports
success; re-delivering the same write then hits `DataExists`, which is again
reported as success. -/
theorem chunk_storage_store_idempotent_witness :
    (ChunkStorage.mk []).store true (Blob.publicB 4 9) 1 =
      (ChunkStorage.mk (insertA [] (Blob.publicB 4 9).address
          (Blob.publicB 4 9)),
        NodeDuty.send (Msg.nodeEvent (Except.ok ()) (in_response_to 1) 1 4)) ∧
    (ChunkStorage.mk (insertA [] (Blob.publicB 4 9).address
        (Blob.publicB 4 9))).store true (Blob.publicB 4 9) 1 =
      (ChunkStorage.mk (insertA [] (Blob.publicB 4 9).address
          (Blob.publicB 4 9)),
        NodeDuty.send (Msg.nodeEvent (Except.ok ()) (in_response_to 1) 1 4)) :=
  ⟨((chunk_storage_store_idempotent (ChunkStorage.mk []) true
      (Blob.publicB 4 9) 1).2.1 (by decide) rfl),
    ((chunk_storage_store_idempotent
      (ChunkStorage.mk (insertA [] (Blob.publicB 4 9).address
        (Blob.publicB 4 9))) true (Blob.publicB 4 9) 1).1 (by decide))⟩

end SafeVault
